import Mathlib

/-!
Shallow embedding of the `ao` CLI orchestrator (project-root resolution,
configuration loading, structural validation, task running, and the
check/build/run/init flows), together with theorems settling the frozen
claims about it.

The filesystem is abstracted as predicates on canonical paths (a path is
the list of its components below the filesystem root), external process
execution is abstracted as a world assigning an outcome and a filesystem
effect to every spawn, and the anyhow error chain is modelled as the list
of context messages, outermost first.
-/

namespace AnOps

/-- A canonical absolute path: its components below the filesystem root. -/
abbrev Path := List String

/-- Render a canonical path the way `Path::display` shows it. -/
def renderPath (p : Path) : String := "/" ++ String.intercalate "/" p

/-- The marker configuration file's name. -/
def aoToml : String := "ao.toml"

/-- A parsed TOML document value (the `toml` crate's value tree): the
configuration loader's input once the text has been read and parsed. -/
inductive TomlVal where
  | str (s : String)
  | int (n : Int)
  | boolean (b : Bool)
  | arr (elems : List TomlVal)
  | table (entries : List (String × TomlVal))

/-- The filesystem as the program observes it: canonicalization (symlink and
relative-segment resolution), file-ness and directory-ness of a path, and the
parsed TOML value of a file's text (`none` when the file cannot be read or
its text does not parse). -/
structure FS where
  canonicalize : Path → Option Path
  isFile : Path → Bool
  isDir : Path → Bool
  toml : Path → Option TomlVal

/-- `Path::exists`: the path names a file or a directory. -/
def FS.pathExists (fs : FS) (p : Path) : Bool := fs.isFile p || fs.isDir p

/-- An `anyhow` error as the program surfaces it: the chain of context
messages, outermost first (`to_string` shows the head). -/
structure AoError where
  msgs : List String
deriving DecidableEq, Repr

/-- The outermost message: what `Display` shows for the error. -/
def AoError.message (e : AoError) : String := e.msgs.headD ""

/-- `with_context`: wrap an error with one more outer message. -/
def AoError.context (m : String) (e : AoError) : AoError := ⟨m :: e.msgs⟩

/-- Wrap a string in single quotes, as the `'{}'` format strings do. -/
def quoted (s : String) : String := "'" ++ s ++ "'"

/-! ### The `shlex` crate's word splitting

`run_tool` tokenizes its command string with `shlex::split`. The splitter
reads words separated by whitespace; single quotes, double quotes and
backslashes group and escape characters; `#` at a word boundary starts a
comment; an unterminated quote or a trailing backslash makes the whole
split fail. -/

/-- Whitespace for the splitter: space, tab or newline. -/
def isShWs (c : Char) : Bool := c = ' ' || c = '\t' || c = '\n'

/-- Consume a quoted segment whose closing quote is `q` (the opening quote
already read), where a backslash escapes exactly the characters satisfying
`e` and otherwise stands for itself followed by the next character.
Returns the segment's text and the rest of the input, or `none` at an
unterminated quote or a dangling backslash. `shlex` has one such loop for
single quotes (`e` holds for `'` and `\`) and one for double quotes
(`e` holds for `$`, a backtick, `"`, `\` and newline). -/
def parseQuoted (q : Char) (e : Char → Bool) : List Char → Option (List Char × List Char)
  | [] => none
  | c :: rest =>
    if c = q then some ([], rest)
    else if c = '\\' then
      match rest with
      | [] => none
      | c2 :: rest2 =>
        match parseQuoted q e rest2 with
        | none => none
        | some (w, r) =>
          if e c2 then some (c2 :: w, r)
          else some ('\\' :: c2 :: w, r)
    else
      match parseQuoted q e rest with
      | none => none
      | some (w, r) => some (c :: w, r)

/-- `shlex`'s single-quote loop. -/
def parseSingle : List Char → Option (List Char × List Char) :=
  parseQuoted '\'' (fun c => c = '\'' || c = '\\')

/-- `shlex`'s double-quote loop. -/
def parseDouble : List Char → Option (List Char × List Char) :=
  parseQuoted '"' (fun c => c = '$' || c = '`' || c = '"' || c = '\\' || c = '\n')

theorem parseQuoted_length (q : Char) (e : Char → Bool) :
    ∀ cs w r, parseQuoted q e cs = some (w, r) → r.length < cs.length := by
  have main : ∀ n cs, cs.length ≤ n → ∀ w r,
      parseQuoted q e cs = some (w, r) → r.length < cs.length := by
    intro n
    induction n with
    | zero =>
      intro cs hlen w r h
      have hnil : cs = [] := List.length_eq_zero.mp (Nat.le_zero.mp hlen)
      subst hnil; unfold parseQuoted at h; simp at h
    | succ n ih =>
      intro cs hlen w r h
      cases cs with
      | nil => simp [parseQuoted] at h
      | cons c rest =>
        unfold parseQuoted at h
        by_cases hq : c = q
        · rw [if_pos hq] at h
          simp only [Option.some.injEq, Prod.mk.injEq] at h
          obtain ⟨-, hr⟩ := h
          subst hr; simp
        · rw [if_neg hq] at h
          by_cases hb : c = '\\'
          · rw [if_pos hb] at h
            cases rest with
            | nil => simp at h
            | cons c2 rest2 =>
              cases hps : parseQuoted q e rest2 with
              | none => simp [hps] at h
              | some pr =>
                obtain ⟨w0, r0⟩ := pr
                have hlt : r0.length < rest2.length := by
                  refine ih rest2 ?_ w0 r0 hps
                  simp only [List.length_cons] at hlen; omega
                by_cases he : e c2 <;> simp [hps, he] at h <;>
                  obtain ⟨-, hr⟩ := h <;> subst hr <;> simp <;> omega
          · rw [if_neg hb] at h
            cases hps : parseQuoted q e rest with
            | none => simp [hps] at h
            | some pr =>
              obtain ⟨w0, r0⟩ := pr
              have hlt : r0.length < rest.length := by
                refine ih rest ?_ w0 r0 hps
                simp only [List.length_cons] at hlen; omega
              simp [hps] at h
              obtain ⟨-, hr⟩ := h
              subst hr; simp; omega
  intro cs; exact main cs.length cs le_rfl

/-- Skip whitespace and comments standing before the next word, as a state
machine over the characters: the flag records whether the scan stands
inside a `#` comment (which runs through the next newline). -/
def skipWsAux : Bool → List Char → List Char
  | _, [] => []
  | true, c :: rest =>
    if c = '\n' then skipWsAux false rest else skipWsAux true rest
  | false, c :: rest =>
    if isShWs c then skipWsAux false rest
    else if c = '#' then skipWsAux true rest
    else c :: rest

/-- Skip whitespace and comments standing before the next word. -/
def skipWs (cs : List Char) : List Char := skipWsAux false cs

theorem skipWsAux_length_le : ∀ cs b, (skipWsAux b cs).length ≤ cs.length := by
  intro cs
  induction cs with
  | nil => intro b; cases b <;> simp [skipWsAux]
  | cons c rest ih =>
    intro b
    cases b with
    | true =>
      unfold skipWsAux
      by_cases hn : c = '\n'
      · rw [if_pos hn]
        have := ih false
        simp only [List.length_cons]; omega
      · rw [if_neg hn]
        have := ih true
        simp only [List.length_cons]; omega
    | false =>
      unfold skipWsAux
      by_cases hw : isShWs c
      · rw [if_pos hw]
        have := ih false
        simp only [List.length_cons]; omega
      · rw [if_neg hw]
        by_cases hh : c = '#'
        · rw [if_pos hh]
          have := ih true
          simp only [List.length_cons]; omega
        · rw [if_neg hh]

theorem skipWs_length_le (cs : List Char) : (skipWs cs).length ≤ cs.length :=
  skipWsAux_length_le cs false

/-- The body of `shlex`'s word loop, with the recursive continuation made
a parameter (`parseWord` below closes the loop). From a position standing
at a non-whitespace character (or at the end), read the characters up to
the next unquoted whitespace, resolving quoted segments and backslash
escapes; `none` at an unterminated quote or a dangling backslash. -/
def parseWordStep (recur : List Char → Option (List Char × List Char)) :
    List Char → Option (List Char × List Char)
  | [] => some ([], [])
  | c :: rest =>
    if isShWs c then some ([], rest)
    else if c = '\'' then
      match parseSingle rest with
      | none => none
      | some (w, r) =>
        match recur r with
        | none => none
        | some (w2, r2) => some (w ++ w2, r2)
    else if c = '"' then
      match parseDouble rest with
      | none => none
      | some (w, r) =>
        match recur r with
        | none => none
        | some (w2, r2) => some (w ++ w2, r2)
    else if c = '\\' then
      match rest with
      | [] => none
      | c2 :: rest2 =>
        match recur rest2 with
        | none => none
        | some (w2, r2) =>
          if c2 = '\n' then some (w2, r2) else some (c2 :: w2, r2)
    else
      match recur rest with
      | none => none
      | some (w2, r2) => some (c :: w2, r2)

/-- The word loop with fuel bounding its depth; the loop consumes at least
one character per turn, so the input's length is enough fuel. -/
def parseWordF : Nat → List Char → Option (List Char × List Char)
  | 0, cs => match cs with
    | [] => some ([], [])
    | _ :: _ => none
  | f + 1, cs => parseWordStep (parseWordF f) cs

/-- Any two sufficient fuels agree. -/
theorem parseWordF_irrel : ∀ f g cs, cs.length ≤ f → cs.length ≤ g →
    parseWordF f cs = parseWordF g cs := by
  intro f
  induction f with
  | zero =>
    intro g cs hf hg
    have hnil : cs = [] := List.length_eq_zero.mp (Nat.le_zero.mp hf)
    subst hnil
    cases g <;> rfl
  | succ f ih =>
    intro g cs hf hg
    cases cs with
    | nil => cases g <;> rfl
    | cons c rest =>
      cases g with
      | zero => simp at hg
      | succ g =>
        show parseWordStep (parseWordF f) (c :: rest) =
          parseWordStep (parseWordF g) (c :: rest)
        simp only [parseWordStep]
        simp only [List.length_cons] at hf hg
        by_cases hw : isShWs c
        · simp [hw]
        · rw [if_neg hw, if_neg hw]
          by_cases hq : c = '\''
          · rw [if_pos hq, if_pos hq]
            cases hps : parseSingle rest with
            | none => rfl
            | some pr =>
              obtain ⟨w0, r0⟩ := pr
              have hr0 : r0.length < rest.length := parseQuoted_length _ _ _ _ _ hps
              dsimp only
              rw [ih g r0 (by omega) (by omega)]
          · rw [if_neg hq, if_neg hq]
            by_cases hd : c = '"'
            · rw [if_pos hd, if_pos hd]
              cases hps : parseDouble rest with
              | none => rfl
              | some pr =>
                obtain ⟨w0, r0⟩ := pr
                have hr0 : r0.length < rest.length := parseQuoted_length _ _ _ _ _ hps
                dsimp only
                rw [ih g r0 (by omega) (by omega)]
            · rw [if_neg hd, if_neg hd]
              by_cases hb : c = '\\'
              · rw [if_pos hb, if_pos hb]
                cases rest with
                | nil => rfl
                | cons c2 rest2 =>
                  simp only [List.length_cons] at hf hg
                  dsimp only
                  rw [ih g rest2 (by omega) (by omega)]
              · rw [if_neg hb, if_neg hb]
                rw [ih g rest (by omega) (by omega)]

/-- `shlex`'s word loop. -/
def parseWord (cs : List Char) : Option (List Char × List Char) :=
  parseWordF cs.length cs

/-- The word loop satisfies its own step equation. -/
theorem parseWord_fix (cs : List Char) :
    parseWord cs = parseWordStep parseWord cs := by
  cases cs with
  | nil => rfl
  | cons c rest =>
    show parseWordStep (parseWordF rest.length) (c :: rest) =
      parseWordStep parseWord (c :: rest)
    simp only [parseWordStep]
    by_cases hw : isShWs c
    · simp [hw]
    · rw [if_neg hw, if_neg hw]
      by_cases hq : c = '\''
      · rw [if_pos hq, if_pos hq]
        cases hps : parseSingle rest with
        | none => rfl
        | some pr =>
          obtain ⟨w0, r0⟩ := pr
          have hr0 : r0.length < rest.length := parseQuoted_length _ _ _ _ _ hps
          dsimp only
          rw [show parseWordF rest.length r0 = parseWord r0 from
            parseWordF_irrel rest.length r0.length r0 (by omega) le_rfl]
      · rw [if_neg hq, if_neg hq]
        by_cases hd : c = '"'
        · rw [if_pos hd, if_pos hd]
          cases hps : parseDouble rest with
          | none => rfl
          | some pr =>
            obtain ⟨w0, r0⟩ := pr
            have hr0 : r0.length < rest.length := parseQuoted_length _ _ _ _ _ hps
            dsimp only
            rw [show parseWordF rest.length r0 = parseWord r0 from
              parseWordF_irrel rest.length r0.length r0 (by omega) le_rfl]
        · rw [if_neg hd, if_neg hd]
          by_cases hb : c = '\\'
          · rw [if_pos hb, if_pos hb]
            cases rest with
            | nil => rfl
            | cons c2 rest2 =>
              dsimp only
              rw [show parseWordF (c2 :: rest2).length rest2 = parseWord rest2 from
                parseWordF_irrel (c2 :: rest2).length rest2.length rest2 (by simp) le_rfl]
          · rw [if_neg hb, if_neg hb]
            rw [show parseWordF rest.length rest = parseWord rest from rfl]

/-- The word loop never lengthens its input. -/
theorem parseWord_length_le :
    ∀ cs w r, parseWord cs = some (w, r) → r.length ≤ cs.length := by
  have main : ∀ n cs, cs.length ≤ n → ∀ w r,
      parseWord cs = some (w, r) → r.length ≤ cs.length := by
    intro n
    induction n with
    | zero =>
      intro cs hlen w r h
      have hnil : cs = [] := List.length_eq_zero.mp (Nat.le_zero.mp hlen)
      subst hnil
      rw [parseWord_fix] at h
      simp only [parseWordStep, Option.some.injEq, Prod.mk.injEq] at h
      obtain ⟨-, hr⟩ := h
      subst hr; simp
    | succ n ih =>
      intro cs hlen w r h
      rw [parseWord_fix] at h
      cases cs with
      | nil =>
        simp only [parseWordStep, Option.some.injEq, Prod.mk.injEq] at h
        obtain ⟨-, hr⟩ := h
        subst hr; simp
      | cons c rest =>
        simp only [parseWordStep] at h
        simp only [List.length_cons] at hlen
        by_cases hw : isShWs c
        · rw [if_pos hw] at h
          simp only [Option.some.injEq, Prod.mk.injEq] at h
          obtain ⟨-, hr⟩ := h
          subst hr; simp
        · rw [if_neg hw] at h
          by_cases hq : c = '\''
          · rw [if_pos hq] at h
            cases hps : parseSingle rest with
            | none => simp [hps] at h
            | some pr =>
              obtain ⟨w0, r0⟩ := pr
              have hr0 : r0.length < rest.length := parseQuoted_length _ _ _ _ _ hps
              cases hpw : parseWord r0 with
              | none => simp [hps, hpw] at h
              | some pr2 =>
                obtain ⟨w2, r2⟩ := pr2
                have hr2 : r2.length ≤ r0.length := ih r0 (by omega) w2 r2 hpw
                simp [hps, hpw] at h
                obtain ⟨-, hr⟩ := h
                subst hr; simp; omega
          · rw [if_neg hq] at h
            by_cases hd : c = '"'
            · rw [if_pos hd] at h
              cases hps : parseDouble rest with
              | none => simp [hps] at h
              | some pr =>
                obtain ⟨w0, r0⟩ := pr
                have hr0 : r0.length < rest.length := parseQuoted_length _ _ _ _ _ hps
                cases hpw : parseWord r0 with
                | none => simp [hps, hpw] at h
                | some pr2 =>
                  obtain ⟨w2, r2⟩ := pr2
                  have hr2 : r2.length ≤ r0.length := ih r0 (by omega) w2 r2 hpw
                  simp [hps, hpw] at h
                  obtain ⟨-, hr⟩ := h
                  subst hr; simp; omega
            · rw [if_neg hd] at h
              by_cases hb : c = '\\'
              · rw [if_pos hb] at h
                cases rest with
                | nil => simp at h
                | cons c2 rest2 =>
                  cases hpw : parseWord rest2 with
                  | none => simp [hpw] at h
                  | some pr2 =>
                    obtain ⟨w2, r2⟩ := pr2
                    have hr2 : r2.length ≤ rest2.length := by
                      refine ih rest2 ?_ w2 r2 hpw
                      simp only [List.length_cons] at hlen; omega
                    by_cases hn : c2 = '\n' <;> simp [hpw, hn] at h <;>
                      obtain ⟨-, hr⟩ := h <;> subst hr <;> simp <;> omega
              · rw [if_neg hb] at h
                cases hpw : parseWord rest with
                | none => simp [hpw] at h
                | some pr2 =>
                  obtain ⟨w2, r2⟩ := pr2
                  have hr2 : r2.length ≤ rest.length := ih rest (by omega) w2 r2 hpw
                  simp [hpw] at h
                  obtain ⟨-, hr⟩ := h
                  subst hr; simp; omega
  intro cs; exact main cs.length cs le_rfl

/-- On a non-empty input the word loop consumes at least one character. -/
theorem parseWord_length_lt (c : Char) (rest : List Char) (w r : List Char)
    (h : parseWord (c :: rest) = some (w, r)) : r.length < (c :: rest).length := by
  rw [parseWord_fix] at h
  simp only [parseWordStep] at h
  by_cases hw : isShWs c
  · rw [if_pos hw] at h
    simp only [Option.some.injEq, Prod.mk.injEq] at h
    obtain ⟨-, hr⟩ := h
    subst hr; simp
  · rw [if_neg hw] at h
    by_cases hq : c = '\''
    · rw [if_pos hq] at h
      cases hps : parseSingle rest with
      | none => simp [hps] at h
      | some pr =>
        obtain ⟨w0, r0⟩ := pr
        have hr0 : r0.length < rest.length := parseQuoted_length _ _ _ _ _ hps
        cases hpw : parseWord r0 with
        | none => simp [hps, hpw] at h
        | some pr2 =>
          obtain ⟨w2, r2⟩ := pr2
          have hr2 : r2.length ≤ r0.length := parseWord_length_le r0 w2 r2 hpw
          simp [hps, hpw] at h
          obtain ⟨-, hr⟩ := h
          subst hr; simp; omega
    · rw [if_neg hq] at h
      by_cases hd : c = '"'
      · rw [if_pos hd] at h
        cases hps : parseDouble rest with
        | none => simp [hps] at h
        | some pr =>
          obtain ⟨w0, r0⟩ := pr
          have hr0 : r0.length < rest.length := parseQuoted_length _ _ _ _ _ hps
          cases hpw : parseWord r0 with
          | none => simp [hps, hpw] at h
          | some pr2 =>
            obtain ⟨w2, r2⟩ := pr2
            have hr2 : r2.length ≤ r0.length := parseWord_length_le r0 w2 r2 hpw
            simp [hps, hpw] at h
            obtain ⟨-, hr⟩ := h
            subst hr; simp; omega
      · rw [if_neg hd] at h
        by_cases hb : c = '\\'
        · rw [if_pos hb] at h
          cases rest with
          | nil => simp at h
          | cons c2 rest2 =>
            cases hpw : parseWord rest2 with
            | none => simp [hpw] at h
            | some pr2 =>
              obtain ⟨w2, r2⟩ := pr2
              have hr2 : r2.length ≤ rest2.length := parseWord_length_le rest2 w2 r2 hpw
              by_cases hn : c2 = '\n' <;> simp [hpw, hn] at h <;>
                obtain ⟨-, hr⟩ := h <;> subst hr <;> simp <;> omega
        · rw [if_neg hb] at h
          cases hpw : parseWord rest with
          | none => simp [hpw] at h
          | some pr2 =>
            obtain ⟨w2, r2⟩ := pr2
            have hr2 : r2.length ≤ rest.length := parseWord_length_le rest w2 r2 hpw
            simp [hpw] at h
            obtain ⟨-, hr⟩ := h
            subst hr; simp; omega

/-- The body of `shlex::split`'s word collection, with the recursive
continuation made a parameter: skip whitespace and comments; at the end
of the input the word list is complete; otherwise read one word and
continue, any word failure failing the whole split. -/
def splitWordsStep (recur : List Char → Option (List (List Char))) (cs : List Char) :
    Option (List (List Char)) :=
  match skipWs cs with
  | [] => some []
  | c :: rest =>
    match parseWord (c :: rest) with
    | none => none
    | some (w, r) =>
      match recur r with
      | none => none
      | some ws => some (w :: ws)

/-- The word collection with fuel bounding its depth. -/
def splitWordsF : Nat → List Char → Option (List (List Char))
  | 0, cs => match skipWs cs with
    | [] => some []
    | _ :: _ => none
  | f + 1, cs => splitWordsStep (splitWordsF f) cs

/-- Any two sufficient fuels agree. -/
theorem splitWordsF_irrel : ∀ f g cs, cs.length ≤ f → cs.length ≤ g →
    splitWordsF f cs = splitWordsF g cs := by
  intro f
  induction f with
  | zero =>
    intro g cs hf hg
    have hnil : cs = [] := List.length_eq_zero.mp (Nat.le_zero.mp hf)
    subst hnil
    cases g <;> rfl
  | succ f ih =>
    intro g cs hf hg
    cases g with
    | zero =>
      have hnil : cs = [] := List.length_eq_zero.mp (Nat.le_zero.mp hg)
      subst hnil; rfl
    | succ g =>
      show splitWordsStep (splitWordsF f) cs = splitWordsStep (splitWordsF g) cs
      unfold splitWordsStep
      cases hsk : skipWs cs with
      | nil => rfl
      | cons c rest =>
        have hskl : (c :: rest).length ≤ cs.length := hsk ▸ skipWs_length_le cs
        dsimp only
        cases hpw : parseWord (c :: rest) with
        | none => rfl
        | some pr =>
          obtain ⟨w, r⟩ := pr
          have hr : r.length < (c :: rest).length := parseWord_length_lt c rest w r hpw
          dsimp only
          rw [ih g r (by omega) (by omega)]

/-- `shlex::split` over a character list: the list of words, or `none`
when any word fails to tokenize. -/
def splitWords (cs : List Char) : Option (List (List Char)) :=
  splitWordsF cs.length cs

/-- The word collection satisfies its own step equation. -/
theorem splitWords_fix (cs : List Char) :
    splitWords cs = splitWordsStep splitWords cs := by
  have h1 : splitWords cs = splitWordsF (cs.length + 1) cs :=
    splitWordsF_irrel cs.length (cs.length + 1) cs le_rfl (by omega)
  rw [h1]
  show splitWordsStep (splitWordsF cs.length) cs = splitWordsStep splitWords cs
  unfold splitWordsStep
  cases hsk : skipWs cs with
  | nil => rfl
  | cons c rest =>
    have hskl : (c :: rest).length ≤ cs.length := hsk ▸ skipWs_length_le cs
    dsimp only
    cases hpw : parseWord (c :: rest) with
    | none => rfl
    | some pr =>
      obtain ⟨w, r⟩ := pr
      have hr : r.length < (c :: rest).length := parseWord_length_lt c rest w r hpw
      dsimp only
      rw [show splitWordsF cs.length r = splitWords r from
        splitWordsF_irrel cs.length r.length r (by omega) le_rfl]

/-- `shlex::split` over the command string. -/
def shlexSplit (s : String) : Option (List String) :=
  (splitWords s.data).map (fun ws => ws.map (fun w => String.mk w))


/-! ### Processes, the external world, and the execution state

A spawned process is external: its exit status (or failure to launch) and
whatever it does to the filesystem are the world's choice, indexed by how
many processes this invocation has spawned so far. The execution state
carries the current filesystem, the spawn count, and the chronological
list of observable events (process spawns and warnings). -/

/-- What a spawned process comes back with: a launch failure, or an exit
with the given status code (`0` is success). -/
inductive Outcome where
  | spawnError
  | exit (code : Nat)
deriving DecidableEq, Repr

/-- The external world: the outcome of the `k`-th spawn of the invocation,
and the change the `k`-th spawned process makes to the filesystem. -/
structure World where
  outcome : Nat → Outcome
  effect : Nat → FS → FS

/-- An observable event: a process spawn (executable name, arguments,
working directory), or a warning log. -/
inductive Event where
  | spawn (cmdName : String) (args : List String) (cwd : Path)
  | warn (msg : String)
deriving DecidableEq, Repr

/-- The execution state threaded through a CLI invocation. -/
structure S where
  fs : FS
  spawned : Nat
  events : List Event

/-- Spawn one process and wait for it: the world answers with the outcome
of the next spawn and transforms the filesystem. -/
def doSpawn (w : World) (cmdName : String) (args : List String) (cwd : Path)
    (s : S) : Outcome × S :=
  (w.outcome s.spawned,
   ⟨w.effect s.spawned s.fs, s.spawned + 1, s.events ++ [.spawn cmdName args cwd]⟩)

/-! ### The Command Executor: `run_tool` (`src/ao-cli/src/utils.rs`)

`run_tool` splits the command string with `shlex`, fails before any spawn
when the split fails or yields no words, and otherwise spawns the command
in the given working directory and waits. The source contains the status
check twice in sequence: when the first spawned process exits non-zero,
the command is built and spawned a second time, and only the second
outcome decides the result. -/

def msgShlexFailed (cmd : String) : String :=
  "Failed to parse command string with shlex: " ++ quoted cmd

def msgNoParts (cmd : String) : String :=
  "Command string " ++ quoted cmd ++ " resulted in no executable parts."

def msgExecFailed (cmd : String) : String :=
  "Failed to execute command: " ++ quoted cmd

def msgNonZeroExit (cmd : String) (code : Nat) : String :=
  "Tool " ++ quoted cmd ++ " failed with status: exit status: " ++ toString code

/-- `run_tool(command_str, project_root)`. -/
def run_tool (w : World) (cmd : String) (cwd : Path) (s : S) :
    Except AoError Unit × S :=
  match shlexSplit cmd with
  | none => (.error ⟨[msgShlexFailed cmd]⟩, s)
  | some [] => (.error ⟨[msgNoParts cmd]⟩, s)
  | some (cmdName :: args) =>
    let r1 := doSpawn w cmdName args cwd s
    match r1.1 with
    | .spawnError => (.error ⟨[msgExecFailed cmd]⟩, r1.2)
    | .exit c1 =>
      if c1 = 0 then (.ok (), r1.2)
      else
        let r2 := doSpawn w cmdName args cwd r1.2
        match r2.1 with
        | .spawnError => (.error ⟨[msgExecFailed cmd]⟩, r2.2)
        | .exit c2 =>
          if c2 = 0 then (.ok (), r2.2)
          else (.error ⟨[msgNonZeroExit cmd c2]⟩, r2.2)

/-! ### The Project Locator: `find_project_root` (`src/ao-cli/src/utils.rs`)

Canonicalize the start path, then walk upward from the resolved directory
to the filesystem root looking for a directory that directly contains a
file named `ao.toml`. -/

/-- `config_path.exists() && config_path.is_file()` for `dir/ao.toml`. -/
def hasMarker (fs : FS) (dir : Path) : Bool :=
  fs.pathExists (dir ++ [aoToml]) && fs.isFile (dir ++ [aoToml])

/-- The upward walk, over the reversed component list (each step drops the
last component of the current directory). -/
def walkUpAux (fs : FS) : List String → Option Path
  | [] => if hasMarker fs [] then some [] else none
  | c :: rest =>
    if hasMarker fs (c :: rest).reverse then some (c :: rest).reverse
    else walkUpAux fs rest

/-- The loop of `find_project_root`: the first directory on the ascending
chain from `p` (inclusive) whose `ao.toml` is a file, or `none` when the
filesystem root is passed without finding one. -/
def walkUp (fs : FS) (p : Path) : Option Path := walkUpAux fs p.reverse

/-- The ascending chain from `p`: `p` itself, then its ancestors up to and
including the filesystem root, nearest first. -/
def ancestorChain (p : Path) : List Path := (List.inits p).reverse

def msgCanonFailed (start : Path) : String :=
  "Failed to canonicalize path: " ++ renderPath start

def msgRootNotFound (start : Path) : String :=
  "Could not find project root (ao.toml) starting from " ++ renderPath start

/-- `find_project_root(start_path)`. -/
def find_project_root (fs : FS) (start : Path) : Except AoError Path :=
  match fs.canonicalize start with
  | none => .error ⟨[msgCanonFailed start]⟩
  | some p =>
    match walkUp fs p with
    | some root => .ok root
    | none => .error ⟨[msgRootNotFound start]⟩

/-- The walk finds exactly the first marker-bearing directory of the
ascending chain. -/
theorem walkUp_eq_find (fs : FS) (p : Path) :
    walkUp fs p = (ancestorChain p).find? (hasMarker fs) := by
  show walkUpAux fs p.reverse = (ancestorChain p).find? (hasMarker fs)
  have key : ∀ l : List String,
      walkUpAux fs l = (ancestorChain l.reverse).find? (hasMarker fs) := by
    intro l
    induction l with
    | nil =>
      show walkUpAux fs [] = (ancestorChain [] ).find? (hasMarker fs)
      unfold walkUpAux ancestorChain
      simp only [List.inits, List.reverse_singleton, List.find?]
      cases hm : hasMarker fs [] <;> simp [hm]
    | cons c rest ih =>
      unfold walkUpAux
      have hrev : (c :: rest).reverse = rest.reverse ++ [c] := by simp
      have hinits : ((c :: rest).reverse).inits =
          (rest.reverse).inits ++ [rest.reverse ++ [c]] := by
        rw [hrev, List.inits_append]
        simp [List.inits]
      unfold ancestorChain
      rw [hinits, List.reverse_append]
      simp only [List.reverse_singleton, List.singleton_append, List.find?]
      rw [← hrev]
      cases hm : hasMarker fs (c :: rest).reverse with
      | true => simp [hm]
      | false =>
        simp only [hm, if_neg, Bool.false_eq_true, if_false, reduceIte]
        exact ih
  have := key p.reverse
  rwa [List.reverse_reverse] at this

/-! ### The Configuration Loader: `load_config` (`src/ao-cli/src/config.rs`)

`Config` derives `Deserialize`: `project` (with its required `name`) is
mandatory, while `check` and `tasks` fall back to their defaults when
absent. Deserialization of a table visits its entries in document order,
matching field names, erring on a duplicate or ill-typed field, and
reports the first missing required field at the end; unknown keys are
ignored. The task table is a map from task name to a list of strings. -/

/-- `[project]`: the required project metadata. -/
structure ProjectConfig where
  name : String
deriving DecidableEq, Repr

/-- `[check]`: linter and tester command lists, each defaulting to empty. -/
structure CheckConfig where
  linters : List String
  testers : List String
deriving DecidableEq, Repr

/-- The parsed `ao.toml`. Tasks are a key-to-command-list association
looked up by exact name. -/
structure Config where
  project : ProjectConfig
  check : CheckConfig
  tasks : List (String × List String)
deriving DecidableEq, Repr

/-- A deserialization diagnostic, carrying the data its message names. -/
inductive DeErr where
  | missingField (field : String)
  | duplicateField (field : String)
  | invalidType (expected : String)
deriving DecidableEq, Repr

/-- The diagnostic text serde renders (its missing-field message names the
field). -/
def renderDeErr : DeErr → String
  | .missingField f => "missing field `" ++ f ++ "`"
  | .duplicateField f => "duplicate field `" ++ f ++ "`"
  | .invalidType expected => "invalid type, expected " ++ expected

/-- Deserialize the elements of a `Vec<String>`: every element must be a
string. -/
def deStrings : List TomlVal → Except DeErr (List String)
  | [] => .ok []
  | .str s :: rest =>
    match deStrings rest with
    | .error e => .error e
    | .ok ss => .ok (s :: ss)
  | _ :: _ => .error (.invalidType "a string")

/-- Deserialize a `Vec<String>`. -/
def deStringList : TomlVal → Except DeErr (List String)
  | .arr elems => deStrings elems
  | _ => .error (.invalidType "a sequence")

/-- Visit the entries of the `[project]` table in document order. -/
def visitProject : List (String × TomlVal) → Option String → Except DeErr ProjectConfig
  | [], none => .error (.missingField "name")
  | [], some n => .ok ⟨n⟩
  | (k, v) :: rest, acc =>
    if k = "name" then
      match acc with
      | some _ => .error (.duplicateField "name")
      | none =>
        match v with
        | .str s => visitProject rest (some s)
        | _ => .error (.invalidType "a string")
    else visitProject rest acc

/-- Deserialize `ProjectConfig`. -/
def deProjectConfig : TomlVal → Except DeErr ProjectConfig
  | .table entries => visitProject entries none
  | _ => .error (.invalidType "a table")

/-- Visit the entries of the `[check]` table in document order; absent
`linters`/`testers` default to empty lists. -/
def visitCheck : List (String × TomlVal) → Option (List String) → Option (List String) →
    Except DeErr CheckConfig
  | [], lin, tst => .ok ⟨lin.getD [], tst.getD []⟩
  | (k, v) :: rest, lin, tst =>
    if k = "linters" then
      match lin with
      | some _ => .error (.duplicateField "linters")
      | none =>
        match deStringList v with
        | .error e => .error e
        | .ok ss => visitCheck rest (some ss) tst
    else if k = "testers" then
      match tst with
      | some _ => .error (.duplicateField "testers")
      | none =>
        match deStringList v with
        | .error e => .error e
        | .ok ss => visitCheck rest lin (some ss)
    else visitCheck rest lin tst

/-- Deserialize `CheckConfig`. -/
def deCheckConfig : TomlVal → Except DeErr CheckConfig
  | .table entries => visitCheck entries none none
  | _ => .error (.invalidType "a table")

/-- Deserialize the `[tasks]` map: every value must be a list of strings. -/
def deTaskEntries : List (String × TomlVal) → Except DeErr (List (String × List String))
  | [] => .ok []
  | (k, v) :: rest =>
    match deStringList v with
    | .error e => .error e
    | .ok cmds =>
      match deTaskEntries rest with
      | .error e => .error e
      | .ok ts => .ok ((k, cmds) :: ts)

/-- Deserialize `HashMap<String, Vec<String>>`. -/
def deTasks : TomlVal → Except DeErr (List (String × List String))
  | .table entries => deTaskEntries entries
  | _ => .error (.invalidType "a table")

/-- Process one entry of the top-level document: match the key against the
three field names (a repeated field is a duplicate, an unrecognized key is
ignored) and deserialize the value into the matching accumulator. -/
def applyEntry (k : String) (v : TomlVal) (proj : Option ProjectConfig)
    (chk : Option CheckConfig) (tks : Option (List (String × List String))) :
    Except DeErr (Option ProjectConfig × Option CheckConfig ×
      Option (List (String × List String))) :=
  if k = "project" then
    match proj with
    | some _ => .error (.duplicateField "project")
    | none =>
      match deProjectConfig v with
      | .error e => .error e
      | .ok p => .ok (some p, chk, tks)
  else if k = "check" then
    match chk with
    | some _ => .error (.duplicateField "check")
    | none =>
      match deCheckConfig v with
      | .error e => .error e
      | .ok c => .ok (proj, some c, tks)
  else if k = "tasks" then
    match tks with
    | some _ => .error (.duplicateField "tasks")
    | none =>
      match deTasks v with
      | .error e => .error e
      | .ok t => .ok (proj, chk, some t)
  else .ok (proj, chk, tks)

/-- Visit the entries of the top-level document in document order; `check`
and `tasks` default when absent, a missing `project` is an error. -/
def visitConfig : List (String × TomlVal) → Option ProjectConfig → Option CheckConfig →
    Option (List (String × List String)) → Except DeErr Config
  | [], proj, chk, tks =>
    match proj with
    | none => .error (.missingField "project")
    | some p => .ok ⟨p, chk.getD ⟨[], []⟩, tks.getD []⟩
  | (k, v) :: rest, proj, chk, tks =>
    match applyEntry k v proj chk tks with
    | .error e => .error e
    | .ok (proj2, chk2, tks2) => visitConfig rest proj2 chk2 tks2

/-- `toml::from_str::<Config>` on a parsed document. -/
def deConfig : TomlVal → Except DeErr Config
  | .table entries => visitConfig entries none none none
  | _ => .error (.invalidType "a table")

def msgConfigNotFound (p : Path) : String :=
  "Configuration file not found: " ++ renderPath p

def msgParseFailed (p : Path) : String :=
  "Failed to parse TOML config file: " ++ renderPath p

/-- `load_config(project_root)`: bail when `ao.toml` does not exist at the
root, then read and parse it. An unreadable file and a text that does not
parse to a document are both `fs.toml = none` here. -/
def load_config (fs : FS) (root : Path) : Except AoError Config :=
  let p := root ++ [aoToml]
  if fs.pathExists p = false then .error ⟨[msgConfigNotFound p]⟩
  else
    match fs.toml p with
    | none => .error ⟨[msgParseFailed p]⟩
    | some v =>
      match deConfig v with
      | .error e => .error ⟨[msgParseFailed p, renderDeErr e]⟩
      | .ok c => .ok c

/-! ### The check flow: structure validation and tool runs
(`src/ao-cli/src/check.rs`) -/

/-- The fixed, ordered list of required subdirectories. -/
def requiredDirs : List String := ["api-service", "model-service", "model-interface"]

/-- The fixed, ordered list of required `(subdirectory, filename)` pairs. -/
def requiredFiles : List (String × String) :=
  [("api-service", "Dockerfile"), ("api-service", "requirements.txt"),
   ("api-service", "anops_pb2.py"), ("api-service", "anops_pb2_grpc.py"),
   ("model-service", "Dockerfile"), ("model-service", "requirements.txt"),
   ("model-service", "anops_pb2.py"), ("model-service", "anops_pb2_grpc.py"),
   ("model-interface", "anops.proto")]

def msgMissingDir (p : Path) : String :=
  "Required directory " ++ quoted (renderPath p) ++ " not found in project root."

def msgNotADir (p : Path) : String :=
  "Path " ++ quoted (renderPath p) ++ " is not a directory."

def msgMissingFile (file dir : String) : String :=
  "Required file " ++ quoted file ++ " not found in directory " ++ quoted dir ++ "."

def msgNotAFile (p : Path) : String :=
  "Path " ++ quoted (renderPath p) ++ " is not a file."

/-- The directory loop of `check::run`: each required name must exist and
be a directory, bailing at the first violation. -/
def checkDirs (fs : FS) (root : Path) : List String → Except AoError Unit
  | [] => .ok ()
  | d :: rest =>
    let p := root ++ [d]
    if fs.pathExists p = false then .error ⟨[msgMissingDir p]⟩
    else if fs.isDir p = false then .error ⟨[msgNotADir p]⟩
    else checkDirs fs root rest

/-- The file loop of `check::run`: each required pair must exist and be a
file, bailing at the first violation. -/
def checkFiles (fs : FS) (root : Path) : List (String × String) → Except AoError Unit
  | [] => .ok ()
  | (d, f) :: rest =>
    let p := root ++ [d, f]
    if fs.pathExists p = false then .error ⟨[msgMissingFile f d]⟩
    else if fs.isFile p = false then .error ⟨[msgNotAFile p]⟩
    else checkFiles fs root rest

/-- The structure checks of `check::run`: all directories, then all files. -/
def checkStructure (fs : FS) (root : Path) : Except AoError Unit :=
  match checkDirs fs root requiredDirs with
  | .error e => .error e
  | .ok _ => checkFiles fs root requiredFiles

/-- Run a list of command strings in order through the Command Executor,
stopping at the first failure and wrapping its error with the given
context. -/
def runToolList (w : World) (ctxOf : String → String) (cmds : List String)
    (cwd : Path) (s : S) : Except AoError Unit × S :=
  match cmds with
  | [] => (.ok (), s)
  | c :: rest =>
    let r := run_tool w c cwd s
    match r.1 with
    | .ok _ => runToolList w ctxOf rest cwd r.2
    | .error e => (.error (e.context (ctxOf c)), r.2)

def msgFindRootCtx (start : Path) : String :=
  "Failed to find project root starting from " ++ quoted (renderPath start)

def msgLoadConfigCtx : String := "Failed to load project configuration"

def msgLinterFailed (c : String) : String :=
  "Linter command " ++ quoted c ++ " failed"

def msgTesterFailed (c : String) : String :=
  "Tester command " ++ quoted c ++ " failed"

/-- `check::run(path_str)`: locate the root, load the configuration,
validate the structure, then run the configured linters and testers in
declared order, fail-fast. -/
def check_run (w : World) (start : Path) (s : S) : Except AoError Unit × S :=
  match find_project_root s.fs start with
  | .error e => (.error (e.context (msgFindRootCtx start)), s)
  | .ok root =>
    match load_config s.fs root with
    | .error e => (.error (e.context msgLoadConfigCtx), s)
    | .ok config =>
      match checkStructure s.fs root with
      | .error e => (.error e, s)
      | .ok _ =>
        let r1 := runToolList w msgLinterFailed config.check.linters root s
        match r1.1 with
        | .error e => (.error e, r1.2)
        | .ok _ => runToolList w msgTesterFailed config.check.testers root r1.2

/-! ### The run flow: the Task Runner (`src/ao-cli/src/run.rs`) -/

def msgTaskNotFound (t : String) : String :=
  "Task " ++ quoted t ++ " not found in ao.toml"

def msgEmptyTask (t : String) : String :=
  "Task " ++ quoted t ++ " has no commands defined."

def msgCmdInTask (c t : String) : String :=
  "Command " ++ quoted c ++ " in task " ++ quoted t ++ " failed"

/-- The task dispatch of `run::run` (the match on `config.tasks.get`):
an absent name is an error; a present name runs its commands in declared
order via the Command Executor with the project root as working directory,
stopping at the first failure with context naming the command and the
task; an empty command list warns and succeeds. -/
def run_task (w : World) (config : Config) (taskName : String) (root : Path)
    (s : S) : Except AoError Unit × S :=
  match config.tasks.lookup taskName with
  | some cmds =>
    if cmds.isEmpty then
      (.ok (), { s with events := s.events ++ [.warn (msgEmptyTask taskName)] })
    else runToolList w (fun c => msgCmdInTask c taskName) cmds root s
  | none => (.error ⟨[msgTaskNotFound taskName]⟩, s)

/-- `run::run(task_name, path_str)`. -/
def run_run (w : World) (taskName : String) (start : Path) (s : S) :
    Except AoError Unit × S :=
  match find_project_root s.fs start with
  | .error e => (.error (e.context (msgFindRootCtx start)), s)
  | .ok root =>
    match load_config s.fs root with
    | .error e => (.error (e.context msgLoadConfigCtx), s)
    | .ok config => run_task w config taskName root s

/-! ### The build flow (`src/ao-cli/src/build.rs`, and `generate_grpc_code`
in `src/ao-cli/src/utils.rs`) -/

/-- `fs::create_dir_all` succeeds unless some prefix of the path already
exists as a file. -/
def canCreateDirAll (fs : FS) (p : Path) : Bool :=
  p.inits.all (fun q => !fs.isFile q)

/-- `fs::create_dir_all`'s effect: the path and all its prefixes become
directories. -/
def FS.mkdirAll (fs : FS) (p : Path) : FS :=
  { fs with isDir := fun q => fs.isDir q || decide (q ∈ p.inits) }

def msgProtoNotFound (p : Path) : String :=
  "Proto file not found at " ++ renderPath p

def msgEnsureDirFailed (svc : String) (p : Path) : String :=
  "Failed to ensure " ++ svc ++ " directory exists: " ++ renderPath p

def msgGrpcExecFailed : String :=
  "Failed to execute python -m grpc_tools.protoc command. " ++
    "Is grpcio-tools installed and python in PATH?"

def msgGrpcFailed (code : Nat) : String :=
  "gRPC code generation failed with status: exit status: " ++ toString code

/-- The argument list `generate_grpc_code` hands to `python`. -/
def grpcArgs (root : Path) : List String :=
  ["-m", "grpc_tools.protoc",
   "-I" ++ renderPath (root ++ ["model-interface"]),
   "--python_out=" ++ renderPath (root ++ ["api-service"]),
   "--pyi_out=" ++ renderPath (root ++ ["api-service"]),
   "--grpc_python_out=" ++ renderPath (root ++ ["api-service"]),
   "--python_out=" ++ renderPath (root ++ ["model-service"]),
   "--pyi_out=" ++ renderPath (root ++ ["model-service"]),
   "--grpc_python_out=" ++ renderPath (root ++ ["model-service"]),
   "anops.proto"]

/-- `generate_grpc_code(project_root)`: require the proto file, ensure the
two output directories, then spawn the generator once (directly, not
through `run_tool`) from the project root and fail on a non-zero exit. -/
def generate_grpc_code (w : World) (root : Path) (s : S) :
    Except AoError Unit × S :=
  let proto := root ++ ["model-interface", "anops.proto"]
  let api := root ++ ["api-service"]
  let model := root ++ ["model-service"]
  if s.fs.pathExists proto = false then (.error ⟨[msgProtoNotFound proto]⟩, s)
  else if canCreateDirAll s.fs api = false then
    (.error ⟨[msgEnsureDirFailed "api-service" api]⟩, s)
  else
    let s1 : S := { s with fs := s.fs.mkdirAll api }
    if canCreateDirAll s1.fs model = false then
      (.error ⟨[msgEnsureDirFailed "model-service" model]⟩, s1)
    else
      let s2 : S := { s1 with fs := s1.fs.mkdirAll model }
      let r := doSpawn w "python" (grpcArgs root) root s2
      match r.1 with
      | .spawnError => (.error ⟨[msgGrpcExecFailed]⟩, r.2)
      | .exit c => if c = 0 then (.ok (), r.2) else (.error ⟨[msgGrpcFailed c]⟩, r.2)

def msgBuildImageFailed (svc img : String) : String :=
  "Failed to build " ++ svc ++ " image: " ++ img

def msgSkipBuild (svc : String) (p : Path) : String :=
  "Skipping " ++ svc ++ " build: directory not found at \"" ++ renderPath p ++ "\""

/-- The container build command line for one image tag. -/
def dockerCmd (img : String) : String := "docker build -t " ++ img ++ " ."

/-- The per-service stage of `build::run`: when the service subdirectory
exists and is a directory, run the container build from it as working
directory; otherwise warn and skip without failing. -/
def buildService (w : World) (svc : String) (img : String) (root : Path)
    (s : S) : Except AoError Unit × S :=
  let svcPath := root ++ [svc]
  if s.fs.pathExists svcPath && s.fs.isDir svcPath then
    let r := run_tool w (dockerCmd img) svcPath s
    match r.1 with
    | .ok _ => (.ok (), r.2)
    | .error e => (.error (e.context (msgBuildImageFailed svc img)), r.2)
  else
    (.ok (), { s with events := s.events ++ [.warn (msgSkipBuild svc svcPath)] })

/-- The image stage of `build::run`: the api-service image, then the
model-service image, tags derived from the project name. -/
def buildImages (w : World) (projectName : String) (root : Path) (s : S) :
    Except AoError Unit × S :=
  let r1 := buildService w "api-service" (projectName ++ "-api-service:latest") root s
  match r1.1 with
  | .error e => (.error e, r1.2)
  | .ok _ =>
    buildService w "model-service" (projectName ++ "-model-service:latest") root r1.2

def msgGenGrpcCtx : String := "Failed to generate gRPC code"

def msgPreBuildCtx : String := "Pre-build checks failed"

/-- `build::run(path_str)`: locate and load, generate gRPC code (aborting
the flow on failure), re-run the whole check pipeline on the original
start path, then build the images. -/
def build_run (w : World) (start : Path) (s : S) : Except AoError Unit × S :=
  match find_project_root s.fs start with
  | .error e => (.error (e.context (msgFindRootCtx start)), s)
  | .ok root =>
    match load_config s.fs root with
    | .error e => (.error (e.context msgLoadConfigCtx), s)
    | .ok config =>
      let r1 := generate_grpc_code w root s
      match r1.1 with
      | .error e => (.error (e.context msgGenGrpcCtx), r1.2)
      | .ok _ =>
        let r2 := check_run w start r1.2
        match r2.1 with
        | .error e => (.error (e.context msgPreBuildCtx), r2.2)
        | .ok _ => buildImages w config.project.name root r2.2

/-! ### The init flow (`src/ao-cli/src/init.rs`)

`init::run(path_str)` extracts the final path component as the project
name (defaulting to `"anops-project"` when the path has none, e.g. it ends
in `..` or is the filesystem root), creates the project tree, and writes
the configuration and template files. Exactly one `ao.toml` is written, at
the project root. -/

/-- Split a character list at every `/`. -/
def splitOnSlash : List Char → List (List Char)
  | [] => [[]]
  | c :: rest =>
    match splitOnSlash rest with
    | [] => [[]]
    | w :: ws => if c = '/' then [] :: w :: ws else (c :: w) :: ws

/-- `Path::file_name().and_then(|n| n.to_str())` on a Unix path string:
the last normal component; `none` when the path terminates in `..`, is the
root, or has no component. Empty and `.` components never count. -/
def rustFileName (s : String) : Option String :=
  let comps := ((splitOnSlash s.data).map (fun cs => String.mk cs)).filter
    (fun c => !(c == "" || c == "."))
  match comps.getLast? with
  | none => none
  | some c => if c = ".." then none else some c

/-- `file_name().unwrap_or("anops-project")`: the name `init` writes. -/
def initProjectName (s : String) : String :=
  (rustFileName s).getD "anops-project"

/-- The directories `init::run` creates under (and including) the project
root. -/
def scaffoldDirs (root : Path) : List Path :=
  [root,
   root ++ ["api-service"], root ++ ["api-service", "tests"],
   root ++ ["model-service"], root ++ ["model-service", "tests"],
   root ++ ["model-interface"]]

/-- The files `init::run` writes: the marker configuration at the root and
the per-service templates. The only `ao.toml` is the root's. -/
def scaffoldFiles (root : Path) : List Path :=
  [root ++ ["ao.toml"],
   root ++ ["api-service", "README.md"], root ++ ["api-service", "Dockerfile"],
   root ++ ["api-service", "requirements.txt"], root ++ ["api-service", "main.py"],
   root ++ ["api-service", "tests", "test_main.py"],
   root ++ ["model-service", "README.md"], root ++ ["model-service", "Dockerfile"],
   root ++ ["model-service", "requirements.txt"], root ++ ["model-service", "server.py"],
   root ++ ["model-service", "tests", "test_server.py"],
   root ++ ["model-interface", "README.md"], root ++ ["model-interface", "anops.proto"],
   root ++ ["README.md"], root ++ [".gitignore"]]

/-- The configuration text `init` writes, as the document it parses to:
`project.name` is the extracted name, `check.linters` and `check.testers`
are empty lists (the testers entry holds only comments), and the `[tasks]`
section is commented out. -/
def initConfigToml (pathStr : String) : TomlVal :=
  .table [("project", .table [("name", .str (initProjectName pathStr))]),
          ("check", .table [("linters", .arr []), ("testers", .arr [])])]

/-- `init::run`'s effect on the filesystem: the scaffold's directories
(with their ancestors) and files come into being, and the root `ao.toml`
holds the generated configuration. -/
def applyInit (fs : FS) (root : Path) (pathStr : String) : FS :=
  { fs with
    isDir := fun q => fs.isDir q || (scaffoldDirs root).any (fun d => decide (q ∈ d.inits))
    isFile := fun q => fs.isFile q || decide (q ∈ scaffoldFiles root)
    toml := fun q => if q = root ++ [aoToml] then some (initConfigToml pathStr) else fs.toml q }

/-! ### Shared concrete fixtures for witnesses -/

/-- An empty filesystem whose canonicalization is the identity. -/
def plainFS : FS :=
  { canonicalize := fun p => some p
    isFile := fun _ => false
    isDir := fun _ => false
    toml := fun _ => none }

/-- The project root used by the concrete fixtures. -/
def sampleRoot : Path := ["home", "proj"]

/-- A freshly scaffolded project at `/home/proj` on an otherwise empty
filesystem. -/
def sampleFS : FS := applyInit plainFS sampleRoot "/home/proj"

/-! ### The ascending chain -/

theorem ancestorChain_cons (p : Path) (hp : p ≠ []) :
    ancestorChain p = p :: ancestorChain p.dropLast := by
  conv_lhs => rw [show p = p.dropLast ++ [p.getLast hp] from
    (List.dropLast_append_getLast hp).symm]
  unfold ancestorChain
  rw [List.inits_append]
  simp [List.inits]
  exact List.dropLast_append_getLast hp

theorem mem_ancestorChain (p r : Path) :
    r ∈ ancestorChain p ↔ ∃ k, r = List.take k p := by
  unfold ancestorChain
  rw [List.mem_reverse, List.mem_inits, List.prefix_iff_eq_take]
  constructor
  · intro h; exact ⟨r.length, h⟩
  · rintro ⟨k, rfl⟩
    rw [List.length_take]
    rcases le_total k p.length with h | h
    · rw [min_eq_left h]
    · rw [min_eq_right h, List.take_length, List.take_of_length_le h]

/-- When the marker sits at an ancestor `root` of `p` and nowhere strictly
between `p` and `root`, the chain search returns `root`. -/
theorem findRoot_chain (fs : FS) (root : Path) : ∀ p : Path, root <+: p →
    hasMarker fs root = true →
    (∀ q : Path, root <+: q → q ≠ root → q <+: p → hasMarker fs q = false) →
    (ancestorChain p).find? (hasMarker fs) = some root := by
  have main : ∀ n (p : Path), p.length ≤ n → root <+: p →
      hasMarker fs root = true →
      (∀ q : Path, root <+: q → q ≠ root → q <+: p → hasMarker fs q = false) →
      (ancestorChain p).find? (hasMarker fs) = some root := by
    intro n
    induction n with
    | zero =>
      intro p hlen hpre hmark _
      have hpnil : p = [] := List.length_eq_zero.mp (Nat.le_zero.mp hlen)
      subst hpnil
      have hroot : root = [] := List.prefix_nil.mp hpre
      subst hroot
      unfold ancestorChain
      simp [List.inits, List.find?, hmark]
    | succ n ih =>
      intro p hlen hpre hmark hnone
      by_cases heq : p = root
      · subst heq
        have hhead : ∃ t, ancestorChain p = p :: t := by
          cases hr : p with
          | nil =>
            refine ⟨[], ?_⟩
            unfold ancestorChain
            simp [List.inits]
          | cons c rest =>
            rw [← hr]
            exact ⟨_, ancestorChain_cons p (by rw [hr]; simp)⟩
        obtain ⟨t, ht⟩ := hhead
        rw [ht, List.find?_cons_of_pos _ hmark]
      · have hplen : root.length < p.length := by
          rcases Nat.lt_or_ge root.length p.length with h | h
          · exact h
          · have hl : root.length = p.length := le_antisymm hpre.length_le h
            exact absurd (hpre.eq_of_length hl).symm heq
        have hpnil : p ≠ [] := by
          intro h; subst h
          exact heq (List.prefix_nil.mp hpre).symm
        rw [ancestorChain_cons p hpnil]
        have hmp : hasMarker fs p = false :=
          hnone p hpre heq (List.prefix_refl p)
        rw [List.find?_cons_of_neg _ (by simp [hmp])]
        have hdp : root <+: p.dropLast := by
          have htk : root = p.take root.length := List.prefix_iff_eq_take.mp hpre
          rw [List.prefix_iff_eq_take, List.dropLast_eq_take, List.take_take,
            min_eq_left (by omega)]
          exact htk
        refine ih p.dropLast ?_ hdp hmark ?_
        · have : p.dropLast.length = p.length - 1 := by simp
          omega
        · intro q hq hqne hqp
          refine hnone q hq hqne (hqp.trans ?_)
          rw [List.dropLast_eq_take]
          exact List.take_prefix _ _
  intro p hpre hmark hnone
  exact main p.length p le_rfl hpre hmark hnone

/-- C3: for every start path, the Project Locator first canonicalizes the
path, failing when resolution itself fails; given the resolved path `p`
it returns the nearest directory on the ascending chain from `p` — the
chain being exactly the prefixes of `p`: the resolved path itself, its
ancestors, and the filesystem root — that directly contains a file named
`ao.toml`, and it fails with the root-not-found error exactly when no
directory on that chain carries the marker. -/
theorem find_project_root_spec (fs : FS) (start : Path) :
    (fs.canonicalize start = none →
      find_project_root fs start = .error ⟨[msgCanonFailed start]⟩) ∧
    (∀ p, fs.canonicalize start = some p →
      (∀ r, r ∈ ancestorChain p ↔ ∃ k, r = List.take k p) ∧
      find_project_root fs start =
        (match (ancestorChain p).find? (hasMarker fs) with
         | some r => .ok r
         | none => .error ⟨[msgRootNotFound start]⟩)) := by
  constructor
  · intro h
    unfold find_project_root
    rw [h]
  · intro p hp
    refine ⟨fun r => mem_ancestorChain p r, ?_⟩
    unfold find_project_root
    rw [hp]
    dsimp only
    rw [walkUp_eq_find]

theorem find_project_root_spec_witness :
    sampleFS.canonicalize ["home", "proj", "api-service"] =
      some ["home", "proj", "api-service"] ∧
    find_project_root sampleFS ["home", "proj", "api-service"] =
      .ok ["home", "proj"] := by
  refine ⟨rfl, ?_⟩
  have h := ((find_project_root_spec sampleFS ["home", "proj", "api-service"]).2
    ["home", "proj", "api-service"] rfl).2
  rw [h]
  rfl

/-- C9: inside a freshly scaffolded project tree (the tree `init` writes,
whose only `ao.toml` stands at the project root), the locator resolves any
start path canonicalizing to a directory of the tree — the root itself or
any nested subdirectory — to that same project root: every start inside
the tree returns the same canonicalized root as starting at the root. -/
theorem locator_in_scaffold (base : FS) (root : Path) (pathStr : String)
    (start p : Path)
    (hfresh : ∀ q : Path, root <+: q → q ≠ root → base.isFile q = false)
    (hcanon : (applyInit base root pathStr).canonicalize start = some p)
    (hp : p ∈ scaffoldDirs root) :
    find_project_root (applyInit base root pathStr) start = .ok root := by
  have hspec := ((find_project_root_spec (applyInit base root pathStr) start).2 p hcanon).2
  rw [hspec]
  have hpre : root <+: p := by
    simp only [scaffoldDirs, List.mem_cons, List.not_mem_nil, or_false] at hp
    rcases hp with rfl | rfl | rfl | rfl | rfl | rfl
    · exact List.prefix_refl _
    all_goals exact ⟨_, rfl⟩
  have hmark : hasMarker (applyInit base root pathStr) root = true := by
    simp [hasMarker, FS.pathExists, applyInit, scaffoldFiles, aoToml]
  have hnone : ∀ q : Path, root <+: q → q ≠ root → q <+: p →
      hasMarker (applyInit base root pathStr) q = false := by
    intro q hq hqne _
    have hnotscaffold : q ++ [aoToml] ∉ scaffoldFiles root := by
      intro hmem
      simp only [scaffoldFiles, List.mem_cons, List.not_mem_nil, or_false] at hmem
      rcases hmem with h | h | h | h | h | h | h | h | h | h | h | h | h | h | h
      · apply hqne
        apply_fun List.reverse at h
        simp only [aoToml, List.reverse_append, List.reverse_singleton,
          List.singleton_append, List.cons.injEq, true_and] at h
        exact List.reverse_injective h
      all_goals
        apply_fun List.reverse at h
        simp [aoToml] at h
    have hfile : (applyInit base root pathStr).isFile (q ++ [aoToml]) = false := by
      have hbase : base.isFile (q ++ [aoToml]) = false := by
        refine hfresh (q ++ [aoToml]) (hq.trans ⟨[aoToml], rfl⟩) ?_
        intro hcontra
        have h1 : root.length ≤ q.length := hq.length_le
        have h2 : (q ++ [aoToml]).length = q.length + 1 := by simp
        rw [hcontra] at h2
        omega
      simp [applyInit, hbase, hnotscaffold]
    simp [hasMarker, FS.pathExists, hfile]
  rw [findRoot_chain (applyInit base root pathStr) root p hpre hmark hnone]

theorem locator_in_scaffold_witness :
    (∀ q : Path, sampleRoot <+: q → q ≠ sampleRoot → plainFS.isFile q = false) ∧
    sampleFS.canonicalize ["home", "proj", "model-service", "tests"] =
      some ["home", "proj", "model-service", "tests"] ∧
    ["home", "proj", "model-service", "tests"] ∈ scaffoldDirs sampleRoot ∧
    find_project_root sampleFS ["home", "proj", "model-service", "tests"] =
      .ok sampleRoot := by
  refine ⟨fun q _ _ => rfl, rfl, by simp [scaffoldDirs, sampleRoot], ?_⟩
  exact locator_in_scaffold plainFS sampleRoot "/home/proj"
    ["home", "proj", "model-service", "tests"]
    ["home", "proj", "model-service", "tests"]
    (fun q _ _ => rfl) rfl (by simp [scaffoldDirs, sampleRoot])

/-- Whether a `Except` computation succeeded. -/
def isOkE {e a : Type} : Except e a → Bool
  | .ok _ => true
  | .error _ => false

/-- Whether a TOML value is a string. -/
def TomlVal.isStr : TomlVal → Bool
  | .str _ => true
  | _ => false

/-- C10: for every path string given to `init`, the `project.name` value
written into the generated `ao.toml` is the path's final component as
`Path::file_name` extracts it, and when the path has no extractable final
component (it terminates in `..`, is the filesystem root, or has no
normal component at all) the name silently defaults to the literal
`"anops-project"` instead of failing; parsing the generated document
yields exactly that name with empty check lists and no tasks. -/
theorem init_project_name_spec (s : String) :
    (∀ c, rustFileName s = some c → initProjectName s = c) ∧
    (rustFileName s = none → initProjectName s = "anops-project") ∧
    deConfig (initConfigToml s) =
      .ok ⟨⟨initProjectName s⟩, ⟨[], []⟩, []⟩ := by
  refine ⟨?_, ?_, ?_⟩
  · intro c hc
    unfold initProjectName
    rw [hc]
    rfl
  · intro hc
    unfold initProjectName
    rw [hc]
    rfl
  · rfl

theorem init_project_name_spec_witness :
    rustFileName "work/demo" = some "demo" ∧
    initProjectName "work/demo" = "demo" ∧
    rustFileName "demo/.." = none ∧
    initProjectName "demo/.." = "anops-project" ∧
    rustFileName "/" = none ∧
    deConfig (initConfigToml "/") =
      .ok ⟨⟨"anops-project"⟩, ⟨[], []⟩, []⟩ := by
  refine ⟨by decide, (init_project_name_spec "work/demo").1 "demo" (by decide),
    by decide, (init_project_name_spec "demo/..").2.1 (by decide), by decide, ?_⟩
  exact (init_project_name_spec "/").2.2

/-! ### Configuration-loading lemmas for C6 -/

/-- A non-`project` entry that succeeds leaves the project accumulator
untouched. -/
theorem applyEntry_keeps_project (k : String) (v : TomlVal)
    (proj : Option ProjectConfig) (chk : Option CheckConfig)
    (tks : Option (List (String × List String)))
    (hk : k ≠ "project") (t : Option ProjectConfig × Option CheckConfig ×
      Option (List (String × List String)))
    (h : applyEntry k v proj chk tks = .ok t) : t.1 = proj := by
  unfold applyEntry at h
  rw [if_neg hk] at h
  by_cases hc : k = "check"
  · rw [if_pos hc] at h
    cases chk with
    | some _ => simp at h
    | none =>
      cases hdc : deCheckConfig v with
      | error e => rw [hdc] at h; simp at h
      | ok c =>
        rw [hdc] at h
        simp only [Except.ok.injEq] at h
        subst h; rfl
  · rw [if_neg hc] at h
    by_cases ht : k = "tasks"
    · rw [if_pos ht] at h
      cases tks with
      | some _ => simp at h
      | none =>
        cases hdt : deTasks v with
        | error e => rw [hdt] at h; simp at h
        | ok t2 =>
          rw [hdt] at h
          simp only [Except.ok.injEq] at h
          subst h; rfl
    · rw [if_neg ht] at h
      simp only [Except.ok.injEq] at h
      subst h; rfl

theorem visitConfig_no_project (entries : List (String × TomlVal)) :
    ∀ chk tks, (∀ kv ∈ entries, kv.1 ≠ "project") →
    isOkE (visitConfig entries none chk tks) = false := by
  induction entries with
  | nil => intro chk tks _; rfl
  | cons kv rest ih =>
    intro chk tks h
    obtain ⟨k, v⟩ := kv
    have hk : k ≠ "project" := h (k, v) (List.mem_cons_self _ _)
    unfold visitConfig
    cases ha : applyEntry k v none chk tks with
    | error e => rfl
    | ok t =>
      obtain ⟨proj2, chk2, tks2⟩ := t
      have hproj := applyEntry_keeps_project k v none chk tks hk _ ha
      simp only at hproj
      subst hproj
      dsimp only
      exact ih _ _ (fun kv hkv => h kv (List.mem_cons_of_mem _ hkv))

/-- An entry with an unrecognized key is ignored. -/
theorem applyEntry_unknown (k : String) (v : TomlVal)
    (proj : Option ProjectConfig) (chk : Option CheckConfig)
    (tks : Option (List (String × List String)))
    (h1 : k ≠ "project") (h2 : k ≠ "check") (h3 : k ≠ "tasks") :
    applyEntry k v proj chk tks = .ok (proj, chk, tks) := by
  unfold applyEntry
  rw [if_neg h1, if_neg h2, if_neg h3]

theorem visitConfig_unknown (entries : List (String × TomlVal)) :
    ∀ chk tks, (∀ kv ∈ entries, kv.1 ≠ "project" ∧ kv.1 ≠ "check" ∧ kv.1 ≠ "tasks") →
    visitConfig entries none chk tks = .error (.missingField "project") := by
  induction entries with
  | nil => intro chk tks _; rfl
  | cons kv rest ih =>
    intro chk tks h
    obtain ⟨k, v⟩ := kv
    obtain ⟨h1, h2, h3⟩ := h (k, v) (List.mem_cons_self _ _)
    unfold visitConfig
    rw [applyEntry_unknown k v none chk tks h1 h2 h3]
    exact ih _ _ (fun kv hkv => h kv (List.mem_cons_of_mem _ hkv))

theorem visitProject_no_name (pentries : List (String × TomlVal)) :
    (∀ kv ∈ pentries, kv.1 ≠ "name") →
    visitProject pentries none = .error (.missingField "name") := by
  induction pentries with
  | nil => intro _; rfl
  | cons kv rest ih =>
    intro h
    obtain ⟨k, v⟩ := kv
    have hk : k ≠ "name" := h (k, v) (List.mem_cons_self _ _)
    unfold visitProject
    rw [if_neg hk]
    exact ih (fun kv hkv => h kv (List.mem_cons_of_mem _ hkv))

theorem deStrings_bad (elems : List TomlVal)
    (h : ∃ v ∈ elems, TomlVal.isStr v = false) :
    isOkE (deStrings elems) = false := by
  induction elems with
  | nil => simp at h
  | cons v rest ih =>
    rcases h with ⟨v0, hv0, hbad⟩
    rcases List.mem_cons.mp hv0 with rfl | hv0rest
    · cases v0 with
      | str s => simp [TomlVal.isStr] at hbad
      | int n => rfl
      | boolean b => rfl
      | arr es => rfl
      | table es => rfl
    · cases v with
      | str s =>
        unfold deStrings
        cases hds : deStrings rest with
        | error e => rfl
        | ok ss =>
          have := ih ⟨v0, hv0rest, hbad⟩
          rw [hds] at this
          simp [isOkE] at this
      | int n => rfl
      | boolean b => rfl
      | arr es => rfl
      | table es => rfl

theorem deTaskEntries_bad (tentries : List (String × TomlVal)) (k : String)
    (elems : List TomlVal) (hmem : (k, TomlVal.arr elems) ∈ tentries)
    (hbad : ∃ v ∈ elems, TomlVal.isStr v = false) :
    isOkE (deTaskEntries tentries) = false := by
  induction tentries with
  | nil => simp at hmem
  | cons kv rest ih =>
    obtain ⟨k1, v1⟩ := kv
    unfold deTaskEntries
    rcases List.mem_cons.mp hmem with heq | hmemrest
    · cases heq
      have hbadlist := deStrings_bad elems hbad
      cases hds : deStrings elems with
      | error e =>
        rw [show deStringList (TomlVal.arr elems) = deStrings elems from rfl, hds]
        rfl
      | ok ss =>
        rw [hds] at hbadlist
        simp [isOkE] at hbadlist
    · cases hds : deStringList v1 with
      | error e => rfl
      | ok cmds =>
        dsimp only
        cases hdt : deTaskEntries rest with
        | error e => rfl
        | ok ts =>
          have := ih hmemrest
          rw [hdt] at this
          simp [isOkE] at this

theorem visitConfig_bad_tasks (tentries : List (String × TomlVal)) (k : String)
    (elems : List TomlVal) (hk : (k, TomlVal.arr elems) ∈ tentries)
    (hbad : ∃ v ∈ elems, TomlVal.isStr v = false) :
    ∀ entries : List (String × TomlVal),
    ("tasks", TomlVal.table tentries) ∈ entries →
    ∀ proj chk tks, isOkE (visitConfig entries proj chk tks) = false := by
  intro entries
  induction entries with
  | nil => intro hmem; simp at hmem
  | cons kv rest ih =>
    intro hmem proj chk tks
    obtain ⟨k1, v1⟩ := kv
    unfold visitConfig
    cases ha : applyEntry k1 v1 proj chk tks with
    | error e => rfl
    | ok t =>
      obtain ⟨proj2, chk2, tks2⟩ := t
      dsimp only
      rcases List.mem_cons.mp hmem with heq | hmemrest
      · cases heq
        exfalso
        have hTbad : isOkE (deTaskEntries tentries) = false :=
          deTaskEntries_bad tentries k elems hk hbad
        unfold applyEntry at ha
        rw [if_neg (by decide), if_neg (by decide), if_pos rfl] at ha
        cases tks with
        | some _ => simp at ha
        | none =>
          cases hdt : deTasks (.table tentries) with
          | error e => rw [hdt] at ha; simp at ha
          | ok t2 =>
            rw [show deTasks (TomlVal.table tentries) = deTaskEntries tentries
              from rfl] at hdt
            rw [hdt] at hTbad
            simp [isOkE] at hTbad
      · exact ih hmemrest proj2 chk2 tks2

/-- C6: for every configuration document, the loader fails whenever the
`project` table is absent (with the diagnostic naming `project` when no
other special section could fail first), whenever `project.name` is
absent (naming `name`), and whenever some task's command list contains a
non-string element; and a document with only `project.name` loads with
`check.linters`, `check.testers` and `tasks` all defaulting to empty
collections. -/
theorem load_config_required_fields :
    (∀ entries : List (String × TomlVal),
        (∀ kv ∈ entries, kv.1 ≠ "project") →
        isOkE (deConfig (.table entries)) = false) ∧
    (∀ entries : List (String × TomlVal),
        (∀ kv ∈ entries, kv.1 ≠ "project" ∧ kv.1 ≠ "check" ∧ kv.1 ≠ "tasks") →
        deConfig (.table entries) = .error (.missingField "project")) ∧
    (∀ pentries : List (String × TomlVal),
        (∀ kv ∈ pentries, kv.1 ≠ "name") →
        deConfig (.table [("project", .table pentries)]) =
          .error (.missingField "name")) ∧
    (∀ (entries tentries : List (String × TomlVal)) (k : String)
        (elems : List TomlVal),
        ("tasks", TomlVal.table tentries) ∈ entries →
        (k, TomlVal.arr elems) ∈ tentries →
        (∃ v ∈ elems, TomlVal.isStr v = false) →
        isOkE (deConfig (.table entries)) = false) ∧
    (∀ name, deConfig (.table [("project", .table [("name", .str name)])]) =
        .ok ⟨⟨name⟩, ⟨[], []⟩, []⟩) := by
  refine ⟨?_, ?_, ?_, ?_, ?_⟩
  · intro entries h
    exact visitConfig_no_project entries none none h
  · intro entries h
    exact visitConfig_unknown entries none none h
  · intro pentries h
    have hv := visitProject_no_name pentries h
    show visitConfig [("project", .table pentries)] none none none = _
    unfold visitConfig
    have happ : applyEntry "project" (.table pentries) none none none =
        .error (.missingField "name") := by
      unfold applyEntry
      rw [if_pos rfl]
      rw [show deProjectConfig (TomlVal.table pentries) = visitProject pentries none
        from rfl, hv]
    rw [happ]
  · intro entries tentries k elems hmem hk hbad
    exact visitConfig_bad_tasks tentries k elems hk hbad entries hmem none none none
  · intro name
    rfl

theorem load_config_required_fields_witness :
    isOkE (deConfig (.table [("check", .table [])])) = false ∧
    deConfig (.table [("extra", .str "x")]) =
      .error (.missingField "project") ∧
    deConfig (.table [("project", .table [])]) = .error (.missingField "name") ∧
    isOkE (deConfig (.table [("project", .table [("name", .str "x")]),
      ("tasks", .table [("build", .arr [.int 1])])])) = false ∧
    deConfig (.table [("project", .table [("name", .str "demo")])]) =
      .ok ⟨⟨"demo"⟩, ⟨[], []⟩, []⟩ := by
  obtain ⟨h1, h2, h3, h4, h5⟩ := load_config_required_fields
  refine ⟨h1 _ ?_, h2 _ ?_, h3 [] ?_, h4 _ [("build", .arr [.int 1])] "build" [.int 1] ?_ ?_ ?_, h5 "demo"⟩
  · intro kv hkv
    simp only [List.mem_cons, List.not_mem_nil, or_false] at hkv
    subst hkv; decide
  · intro kv hkv
    simp only [List.mem_cons, List.not_mem_nil, or_false] at hkv
    subst hkv; refine ⟨by decide, by decide, by decide⟩
  · intro kv hkv
    simp at hkv
  · simp
  · simp
  · exact ⟨.int 1, by simp, rfl⟩

/-! ### C5: the Structural Validator -/

/-- A required directory entry is violated when the path is absent or not
a directory. -/
def dirViolation (fs : FS) (root : Path) (d : String) : Bool :=
  !fs.pathExists (root ++ [d]) || !fs.isDir (root ++ [d])

/-- The error the directory loop reports for a violating entry. -/
def dirError (fs : FS) (root : Path) (d : String) : AoError :=
  if fs.pathExists (root ++ [d]) = false then ⟨[msgMissingDir (root ++ [d])]⟩
  else ⟨[msgNotADir (root ++ [d])]⟩

/-- A required file entry is violated when the path is absent or not a
file. -/
def fileViolation (fs : FS) (root : Path) (p : String × String) : Bool :=
  !fs.pathExists (root ++ [p.1, p.2]) || !fs.isFile (root ++ [p.1, p.2])

/-- The error the file loop reports for a violating entry: the missing
case names both the file and its containing subdirectory. -/
def fileError (fs : FS) (root : Path) (p : String × String) : AoError :=
  if fs.pathExists (root ++ [p.1, p.2]) = false then ⟨[msgMissingFile p.2 p.1]⟩
  else ⟨[msgNotAFile (root ++ [p.1, p.2])]⟩

theorem checkDirs_spec (fs : FS) (root : Path) : ∀ ds : List String,
    checkDirs fs root ds =
      match ds.find? (dirViolation fs root) with
      | some d => .error (dirError fs root d)
      | none => .ok () := by
  intro ds
  induction ds with
  | nil => rfl
  | cons d rest ih =>
    unfold checkDirs
    by_cases hex : fs.pathExists (root ++ [d]) = false
    · have hviol : dirViolation fs root d = true := by
        simp [dirViolation, hex]
      rw [List.find?_cons_of_pos _ hviol, if_pos hex]
      simp [dirError, hex]
    · rw [if_neg hex]
      by_cases hdir : fs.isDir (root ++ [d]) = false
      · have hviol : dirViolation fs root d = true := by
          simp [dirViolation, hdir]
        rw [List.find?_cons_of_pos _ hviol, if_pos hdir]
        simp only [Bool.not_eq_false] at hex
        simp [dirError, hex]
      · have hviol : dirViolation fs root d = false := by
          simp only [Bool.not_eq_false] at hex hdir
          simp [dirViolation, hex, hdir]
        rw [List.find?_cons_of_neg _ (by simp [hviol]), if_neg hdir]
        exact ih

theorem checkFiles_spec (fs : FS) (root : Path) : ∀ ps : List (String × String),
    checkFiles fs root ps =
      match ps.find? (fileViolation fs root) with
      | some p => .error (fileError fs root p)
      | none => .ok () := by
  intro ps
  induction ps with
  | nil => rfl
  | cons p rest ih =>
    obtain ⟨d, f⟩ := p
    unfold checkFiles
    by_cases hex : fs.pathExists (root ++ [d, f]) = false
    · have hviol : fileViolation fs root (d, f) = true := by
        simp [fileViolation, hex]
      rw [List.find?_cons_of_pos _ hviol, if_pos hex]
      simp [fileError, hex]
    · rw [if_neg hex]
      by_cases hfile : fs.isFile (root ++ [d, f]) = false
      · have hviol : fileViolation fs root (d, f) = true := by
          simp [fileViolation, hfile]
        rw [List.find?_cons_of_pos _ hviol, if_pos hfile]
        simp only [Bool.not_eq_false] at hex
        simp [fileError, hex]
      · have hviol : fileViolation fs root (d, f) = false := by
          simp only [Bool.not_eq_false] at hex hfile
          simp [fileViolation, hex, hfile]
        rw [List.find?_cons_of_neg _ (by simp [hviol]), if_neg hfile]
        exact ih

/-- C5: the Structural Validator checks the fixed, hardcoded directory
list in order (existence and directory-ness) before the fixed file list
(existence and file-ness), fails on the first violating entry, naming the
offending path (a missing file's error names the file and its containing
subdirectory), and never reads any file's contents: two filesystems
agreeing on file-ness and directory-ness validate identically, whatever
their contents. -/
theorem checkStructure_spec (fs fs2 : FS) (root : Path)
    (hf : fs2.isFile = fs.isFile) (hd : fs2.isDir = fs.isDir) :
    checkStructure fs root =
      (match requiredDirs.find? (dirViolation fs root) with
       | some d => .error (dirError fs root d)
       | none =>
         match requiredFiles.find? (fileViolation fs root) with
         | some p => .error (fileError fs root p)
         | none => .ok ()) ∧
    checkStructure fs2 root = checkStructure fs root := by
  have heqD : ∀ ds, checkDirs fs2 root ds = checkDirs fs root ds := by
    intro ds
    induction ds with
    | nil => rfl
    | cons d rest ih =>
      unfold checkDirs
      dsimp only
      rw [show fs2.pathExists (root ++ [d]) = fs.pathExists (root ++ [d]) by
        simp [FS.pathExists, hf, hd]]
      rw [hd, ih]
  have heqF : ∀ ps, checkFiles fs2 root ps = checkFiles fs root ps := by
    intro ps
    induction ps with
    | nil => rfl
    | cons p rest ih =>
      obtain ⟨d, f⟩ := p
      unfold checkFiles
      dsimp only
      rw [show fs2.pathExists (root ++ [d, f]) = fs.pathExists (root ++ [d, f]) by
        simp [FS.pathExists, hf, hd]]
      rw [hf, ih]
  constructor
  · unfold checkStructure
    rw [checkDirs_spec fs root requiredDirs]
    cases requiredDirs.find? (dirViolation fs root) with
    | some d => rfl
    | none =>
      dsimp only
      rw [checkFiles_spec fs root requiredFiles]
  · unfold checkStructure
    rw [heqD, heqF]

theorem checkStructure_spec_witness :
    ({ sampleFS with toml := fun _ => none } : FS).isFile = sampleFS.isFile ∧
    ({ sampleFS with toml := fun _ => none } : FS).isDir = sampleFS.isDir ∧
    checkStructure sampleFS sampleRoot =
      .error ⟨[msgMissingFile "anops_pb2.py" "api-service"]⟩ ∧
    checkStructure { sampleFS with toml := fun _ => none } sampleRoot =
      checkStructure sampleFS sampleRoot := by
  have h := checkStructure_spec sampleFS { sampleFS with toml := fun _ => none }
    sampleRoot rfl rfl
  refine ⟨rfl, rfl, ?_, h.2⟩
  rw [h.1]
  rfl

/-! ### Command Executor step lemmas -/

theorem run_tool_eq_parseFail (w : World) (cmd : String) (cwd : Path) (s : S)
    (h : shlexSplit cmd = none) :
    run_tool w cmd cwd s = (.error ⟨[msgShlexFailed cmd]⟩, s) := by
  unfold run_tool
  rw [h]

theorem run_tool_eq_empty (w : World) (cmd : String) (cwd : Path) (s : S)
    (h : shlexSplit cmd = some []) :
    run_tool w cmd cwd s = (.error ⟨[msgNoParts cmd]⟩, s) := by
  unfold run_tool
  rw [h]

/-- The executor's behaviour once the split yielded an executable name:
spawn; on a clean exit return; on a non-zero exit the duplicated block in
the source spawns the same command a second time and only the second
outcome decides the result. -/
theorem run_tool_eq_run (w : World) (cmd : String) (cwd : Path) (s : S)
    (nm : String) (args : List String) (h : shlexSplit cmd = some (nm :: args)) :
    run_tool w cmd cwd s =
      (let s1 : S := ⟨w.effect s.spawned s.fs, s.spawned + 1,
        s.events ++ [.spawn nm args cwd]⟩
       match w.outcome s.spawned with
       | .spawnError => (.error ⟨[msgExecFailed cmd]⟩, s1)
       | .exit c1 =>
         if c1 = 0 then (.ok (), s1)
         else
           (let s2 : S := ⟨w.effect s1.spawned s1.fs, s1.spawned + 1,
             s1.events ++ [.spawn nm args cwd]⟩
            match w.outcome s1.spawned with
            | .spawnError => (.error ⟨[msgExecFailed cmd]⟩, s2)
            | .exit c2 =>
              if c2 = 0 then (.ok (), s2)
              else (.error ⟨[msgNonZeroExit cmd c2]⟩, s2))) := by
  unfold run_tool
  rw [h]
  rfl

/-- Every event the executor appends is a spawn in the given working
directory. -/
theorem run_tool_events (w : World) (cmd : String) (cwd : Path) (s : S) :
    ∃ evs, (run_tool w cmd cwd s).2.events = s.events ++ evs ∧
      ∀ ev ∈ evs, ∃ nm2 args2, ev = Event.spawn nm2 args2 cwd := by
  cases hsp : shlexSplit cmd with
  | none =>
    rw [run_tool_eq_parseFail w cmd cwd s hsp]
    exact ⟨[], by simp, by simp⟩
  | some parts =>
    cases parts with
    | nil =>
      rw [run_tool_eq_empty w cmd cwd s hsp]
      exact ⟨[], by simp, by simp⟩
    | cons nm args =>
      rw [run_tool_eq_run w cmd cwd s nm args hsp]
      dsimp only
      have hone : ∀ ev ∈ [Event.spawn nm args cwd],
          ∃ nm2 args2, ev = Event.spawn nm2 args2 cwd := by
        intro ev hev
        simp only [List.mem_singleton] at hev
        exact ⟨nm, args, hev⟩
      have htwo : ∀ ev ∈ [Event.spawn nm args cwd, Event.spawn nm args cwd],
          ∃ nm2 args2, ev = Event.spawn nm2 args2 cwd := by
        intro ev hev
        simp only [List.mem_cons, List.mem_singleton, List.not_mem_nil, or_false] at hev
        rcases hev with rfl | rfl <;> exact ⟨nm, args, rfl⟩
      cases w.outcome s.spawned with
      | spawnError => exact ⟨[Event.spawn nm args cwd], rfl, hone⟩
      | exit c1 =>
        try dsimp only
        by_cases hc1 : c1 = 0
        · rw [if_pos hc1]
          exact ⟨[Event.spawn nm args cwd], rfl, hone⟩
        · rw [if_neg hc1]
          try dsimp only
          cases w.outcome (s.spawned + 1) with
          | spawnError =>
            exact ⟨[Event.spawn nm args cwd, Event.spawn nm args cwd],
              by simp, htwo⟩
          | exit c2 =>
            try dsimp only
            by_cases hc2 : c2 = 0
            · rw [if_pos hc2]
              exact ⟨[Event.spawn nm args cwd, Event.spawn nm args cwd],
                by simp, htwo⟩
            · rw [if_neg hc2]
              exact ⟨[Event.spawn nm args cwd, Event.spawn nm args cwd],
                by simp, htwo⟩

/-- The step equation of a tool list run on a non-empty list. -/
theorem runToolList_cons (w : World) (ctxOf : String → String) (c : String)
    (rest : List String) (root : Path) (s : S) :
    runToolList w ctxOf (c :: rest) root s =
      match (run_tool w c root s).1 with
      | .ok _ => runToolList w ctxOf rest root (run_tool w c root s).2
      | .error e => (.error (e.context (ctxOf c)), (run_tool w c root s).2) := rfl

/-- Every event a tool list run appends is a spawn in the given working
directory. -/
theorem runToolList_events (w : World) (ctxOf : String → String) :
    ∀ (cmds : List String) (root : Path) (s : S),
    ∃ evs, (runToolList w ctxOf cmds root s).2.events = s.events ++ evs ∧
      ∀ ev ∈ evs, ∃ nm args, ev = Event.spawn nm args root := by
  intro cmds
  induction cmds with
  | nil => intro root s; exact ⟨[], by simp [runToolList], by simp⟩
  | cons c rest ih =>
    intro root s
    rw [runToolList_cons]
    obtain ⟨evs1, he1, hp1⟩ := run_tool_events w c root s
    cases hr : (run_tool w c root s).1 with
    | error e =>
      exact ⟨evs1, he1, hp1⟩
    | ok u =>
      obtain ⟨evs2, he2, hp2⟩ := ih root (run_tool w c root s).2
      refine ⟨evs1 ++ evs2, ?_, ?_⟩
      · rw [he2, he1, List.append_assoc]
      · intro ev hev
        rcases List.mem_append.mp hev with h | h
        · exact hp1 ev h
        · exact hp2 ev h

/-- The first-failure characterization of a tool list run: some prefix of
length `n` fully determines the run; on success the whole list ran, and on
failure the first `n - 1` commands succeeded and the error wraps the
`n`-th command's error in the given context. -/
theorem runToolList_spec (w : World) (ctxOf : String → String) :
    ∀ (cmds : List String) (root : Path) (s : S),
    ∃ n, n ≤ cmds.length ∧
      runToolList w ctxOf cmds root s = runToolList w ctxOf (cmds.take n) root s ∧
      (match (runToolList w ctxOf cmds root s).1 with
       | .ok _ => n = cmds.length
       | .error e => ∃ c rest2, cmds.get? (n - 1) = some c ∧ 1 ≤ n ∧
           e.msgs = ctxOf c :: rest2 ∧
           (runToolList w ctxOf (cmds.take (n - 1)) root s).1 = .ok ()) := by
  intro cmds
  induction cmds with
  | nil =>
    intro root s
    refine ⟨0, le_rfl, rfl, ?_⟩
    show (0 : Nat) = 0
    rfl
  | cons c rest ih =>
    intro root s
    cases hr : (run_tool w c root s).1 with
    | error e =>
      have hstep : runToolList w ctxOf (c :: rest) root s =
          (.error (e.context (ctxOf c)), (run_tool w c root s).2) := by
        rw [runToolList_cons, hr]
      refine ⟨1, by simp, ?_, ?_⟩
      · have hstep1 : runToolList w ctxOf ((c :: rest).take 1) root s =
            (.error (e.context (ctxOf c)), (run_tool w c root s).2) := by
          show runToolList w ctxOf [c] root s = _
          rw [runToolList_cons, hr]
        rw [hstep, hstep1]
      · rw [hstep]
        exact ⟨c, e.msgs, rfl, le_rfl, rfl, rfl⟩
    | ok u =>
      obtain ⟨n, hn, heq, hmatch⟩ := ih root (run_tool w c root s).2
      have hstep : runToolList w ctxOf (c :: rest) root s =
          runToolList w ctxOf rest root (run_tool w c root s).2 := by
        rw [runToolList_cons, hr]
      refine ⟨n + 1, by simp only [List.length_cons]; omega, ?_, ?_⟩
      · rw [List.take_succ_cons]
        have hstep1 : runToolList w ctxOf (c :: rest.take n) root s =
            runToolList w ctxOf (rest.take n) root (run_tool w c root s).2 := by
          rw [runToolList_cons, hr]
        rw [hstep, hstep1, heq]
      · rw [hstep]
        cases hres2 : (runToolList w ctxOf rest root (run_tool w c root s).2).1 with
        | ok _ =>
          rw [hres2] at hmatch
          show n + 1 = (c :: rest).length
          simp only [List.length_cons]
          omega
        | error e2 =>
          rw [hres2] at hmatch
          obtain ⟨c2, rest2, hget, hn1, hmsgs, hpref⟩ := hmatch
          refine ⟨c2, rest2, ?_, by omega, hmsgs, ?_⟩
          · show (c :: rest).get? (n + 1 - 1) = some c2
            have hsub : n + 1 - 1 = n := rfl
            rw [hsub]
            cases n with
            | zero => omega
            | succ m =>
              rw [List.get?_cons_succ]
              have hm : m + 1 - 1 = m := rfl
              rw [hm] at hget
              exact hget
          · have hsub : n + 1 - 1 = n := rfl
            rw [hsub]
            cases n with
            | zero => omega
            | succ m =>
              rw [List.take_succ_cons]
              have hstep1 : runToolList w ctxOf (c :: rest.take m) root s =
                  runToolList w ctxOf (rest.take m) root (run_tool w c root s).2 := by
                rw [runToolList_cons, hr]
              rw [hstep1]
              have hm : m + 1 - 1 = m := rfl
              rw [hm] at hpref
              exact hpref

/-! ### C4 and C7: the Task Runner -/

/-- A sample configuration with an empty task and a three-command task. -/
def sampleConfig : Config :=
  ⟨⟨"demo"⟩, ⟨[], []⟩,
   [("empty", []), ("build", ["mkdir out", "ls missing", "mkdir unreachable"])]⟩

/-- A world whose first spawn succeeds and whose later spawns exit 1. -/
def failWorld : World :=
  ⟨fun k => if k = 0 then .exit 0 else .exit 1, fun _ fs => fs⟩

/-- The initial execution state on the plain filesystem. -/
def s0 : S := ⟨plainFS, 0, []⟩

/-- C4: for every task found in the configuration with a non-empty command
list, the Task Runner is the fail-fast run of the declared command list
with the project root as working directory: every recorded event is a
spawn in the root; some prefix length `n` fully determines the run (so no
command after the first failing one is attempted and its side effects
never occur); on success `n` covers the whole list; on failure the first
`n - 1` commands succeeded and the error's outermost message is the
context naming both the failing command string and the task name. -/
theorem run_task_fail_fast (w : World) (config : Config) (t : String)
    (root : Path) (s : S) (cmds : List String)
    (hlook : config.tasks.lookup t = some cmds) (hne : cmds ≠ []) :
    run_task w config t root s =
      runToolList w (fun c => msgCmdInTask c t) cmds root s ∧
    (∃ evs, (run_task w config t root s).2.events = s.events ++ evs ∧
      ∀ ev ∈ evs, ∃ nm args, ev = Event.spawn nm args root) ∧
    ∃ n, n ≤ cmds.length ∧
      run_task w config t root s =
        runToolList w (fun c => msgCmdInTask c t) (cmds.take n) root s ∧
      (match (run_task w config t root s).1 with
       | .ok _ => n = cmds.length
       | .error e => ∃ c rest2, cmds.get? (n - 1) = some c ∧ 1 ≤ n ∧
           e.msgs = msgCmdInTask c t :: rest2 ∧
           (runToolList w (fun c => msgCmdInTask c t) (cmds.take (n - 1)) root s).1 =
             .ok ()) := by
  have hdisp : run_task w config t root s =
      runToolList w (fun c => msgCmdInTask c t) cmds root s := by
    unfold run_task
    rw [hlook]
    dsimp only
    cases cmds with
    | nil => exact absurd rfl hne
    | cons c cs => rw [if_neg (by simp)]
  refine ⟨hdisp, ?_, ?_⟩
  · rw [hdisp]
    exact runToolList_events w _ cmds root s
  · obtain ⟨n, hn, heq, hm⟩ := runToolList_spec w (fun c => msgCmdInTask c t) cmds root s
    refine ⟨n, hn, ?_, ?_⟩
    · rw [hdisp]; exact heq
    · rw [hdisp]; exact hm

theorem run_task_fail_fast_witness :
    sampleConfig.tasks.lookup "build" =
      some ["mkdir out", "ls missing", "mkdir unreachable"] ∧
    (["mkdir out", "ls missing", "mkdir unreachable"] : List String) ≠ [] ∧
    (run_task failWorld sampleConfig "build" sampleRoot s0 =
      runToolList failWorld (fun c => msgCmdInTask c "build")
        ["mkdir out", "ls missing", "mkdir unreachable"] sampleRoot s0 ∧
    (∃ evs, (run_task failWorld sampleConfig "build" sampleRoot s0).2.events =
        s0.events ++ evs ∧
      ∀ ev ∈ evs, ∃ nm args, ev = Event.spawn nm args sampleRoot) ∧
    ∃ n, n ≤ (["mkdir out", "ls missing", "mkdir unreachable"] : List String).length ∧
      run_task failWorld sampleConfig "build" sampleRoot s0 =
        runToolList failWorld (fun c => msgCmdInTask c "build")
          (["mkdir out", "ls missing", "mkdir unreachable"].take n) sampleRoot s0 ∧
      (match (run_task failWorld sampleConfig "build" sampleRoot s0).1 with
       | .ok _ => n = (["mkdir out", "ls missing", "mkdir unreachable"] : List String).length
       | .error e => ∃ c rest2,
           (["mkdir out", "ls missing", "mkdir unreachable"] : List String).get? (n - 1) =
             some c ∧ 1 ≤ n ∧
           e.msgs = msgCmdInTask c "build" :: rest2 ∧
           (runToolList failWorld (fun c => msgCmdInTask c "build")
             (["mkdir out", "ls missing", "mkdir unreachable"].take (n - 1))
             sampleRoot s0).1 = .ok ())) := by
  refine ⟨rfl, by simp, ?_⟩
  exact run_task_fail_fast failWorld sampleConfig "build" sampleRoot s0
    ["mkdir out", "ls missing", "mkdir unreachable"] rfl (by simp)

/-- C7: the Task Runner looks the task name up by exact match: an absent
key fails with the task-not-found error, whose message contains both the
literal text `not found` and the task name; a present key mapped to an
empty command list warns and succeeds with the state otherwise untouched —
in particular no process is spawned. -/
theorem run_task_lookup_spec (w : World) (config : Config) (t : String)
    (root : Path) (s : S) :
    (config.tasks.lookup t = none →
      run_task w config t root s = (.error ⟨[msgTaskNotFound t]⟩, s)) ∧
    (∃ a b : List Char, (msgTaskNotFound t).data = a ++ ("not found".data ++ b)) ∧
    (∃ a b : List Char, (msgTaskNotFound t).data = a ++ (t.data ++ b)) ∧
    (config.tasks.lookup t = some [] →
      run_task w config t root s =
        (.ok (), { s with events := s.events ++ [.warn (msgEmptyTask t)] })) := by
  have hdata : (msgTaskNotFound t).data =
      "Task '".data ++ (t.data ++ "' not found in ao.toml".data) := by
    have h1 : (msgTaskNotFound t).data =
        "Task ".data ++ (("'".data ++ t.data) ++ "'".data) ++
          " not found in ao.toml".data := rfl
    rw [h1]
    simp only [List.append_assoc]
    rw [← List.append_assoc "Task ".data "'".data]
    rw [show "Task ".data ++ "'".data = ("Task '".data : List Char) from by decide]
    rw [show "'".data ++ " not found in ao.toml".data =
      ("' not found in ao.toml".data : List Char) from by decide]
  refine ⟨?_, ?_, ?_, ?_⟩
  · intro h
    unfold run_task
    rw [h]
  · refine ⟨"Task '".data ++ (t.data ++ "' ".data), " in ao.toml".data, ?_⟩
    rw [hdata]
    simp only [List.append_assoc]
    rw [show "' ".data ++ ("not found".data ++ " in ao.toml".data) =
      ("' not found in ao.toml".data : List Char) from by decide]
  · exact ⟨"Task '".data, "' not found in ao.toml".data, hdata⟩
  · intro h
    unfold run_task
    rw [h]
    simp

theorem run_task_lookup_spec_witness :
    sampleConfig.tasks.lookup "deploy" = none ∧
    run_task failWorld sampleConfig "deploy" sampleRoot s0 =
      (.error ⟨[msgTaskNotFound "deploy"]⟩, s0) ∧
    (∃ a b : List Char, (msgTaskNotFound "deploy").data =
      a ++ ("not found".data ++ b)) ∧
    sampleConfig.tasks.lookup "empty" = some [] ∧
    run_task failWorld sampleConfig "empty" sampleRoot s0 =
      (.ok (), { s0 with events := s0.events ++ [.warn (msgEmptyTask "empty")] }) := by
  have h1 := run_task_lookup_spec failWorld sampleConfig "deploy" sampleRoot s0
  have h2 := run_task_lookup_spec failWorld sampleConfig "empty" sampleRoot s0
  exact ⟨rfl, h1.1 rfl, h1.2.1, rfl, h2.2.2.2 rfl⟩

/-! ### C8 and C1: the Command Executor -/

/-- A world where every spawn exits cleanly. -/
def okWorld : World := ⟨fun _ => .exit 0, fun _ fs => fs⟩

/-- A world where the first spawn exits 1 and every later spawn exits 0:
a flaky external tool. -/
def flakyWorld : World :=
  ⟨fun k => if k = 0 then .exit 1 else .exit 0, fun _ fs => fs⟩

/-- C8: the Command Executor tokenizes its command string with shell word
splitting that honors quoting — `echo "hello world"` tokenizes to the
executable `echo` with the single argument `hello world`, and whenever the
split yields a first token the executor spawns exactly that executable
with exactly the remaining tokens as arguments — while a command string
whose tokenization is ambiguous (e.g. unbalanced quotes) or yields zero
tokens (including the empty string) fails with a parse error before any
process is spawned: the state, spawn count and event log included, is
returned untouched. -/
theorem run_tool_tokenization (w : World) (cwd : Path) (s : S) :
    shlexSplit "echo \"hello world\"" = some ["echo", "hello world"] ∧
    shlexSplit "echo \"hello" = none ∧
    shlexSplit "" = some [] ∧
    (∀ cmd, shlexSplit cmd = none →
      run_tool w cmd cwd s = (.error ⟨[msgShlexFailed cmd]⟩, s)) ∧
    (∀ cmd, shlexSplit cmd = some [] →
      run_tool w cmd cwd s = (.error ⟨[msgNoParts cmd]⟩, s)) ∧
    (∀ cmd nm args, shlexSplit cmd = some (nm :: args) →
      w.outcome s.spawned = .exit 0 →
      run_tool w cmd cwd s = (.ok (), ⟨w.effect s.spawned s.fs, s.spawned + 1,
        s.events ++ [.spawn nm args cwd]⟩)) := by
  refine ⟨by decide, by decide, by decide, ?_, ?_, ?_⟩
  · intro cmd h
    exact run_tool_eq_parseFail w cmd cwd s h
  · intro cmd h
    exact run_tool_eq_empty w cmd cwd s h
  · intro cmd nm args h ho
    rw [run_tool_eq_run w cmd cwd s nm args h]
    dsimp only
    rw [ho]
    rfl

theorem run_tool_tokenization_witness :
    shlexSplit "echo \"hello world\"" = some ["echo", "hello world"] ∧
    okWorld.outcome s0.spawned = .exit 0 ∧
    run_tool okWorld "echo \"hello world\"" sampleRoot s0 =
      (.ok (), ⟨plainFS, 1, [.spawn "echo" ["hello world"] sampleRoot]⟩) ∧
    run_tool okWorld "echo \"hello" sampleRoot s0 =
      (.error ⟨[msgShlexFailed "echo \"hello"]⟩, s0) ∧
    run_tool okWorld "" sampleRoot s0 = (.error ⟨[msgNoParts ""]⟩, s0) := by
  have h := run_tool_tokenization okWorld sampleRoot s0
  refine ⟨h.1, rfl, ?_, h.2.2.2.1 _ h.2.1, h.2.2.2.2.1 _ h.2.2.1⟩
  exact h.2.2.2.2.2 "echo \"hello world\"" "echo" ["hello world"] h.1 rfl

/-- C1 (refuting evidence for the claim that the executor spawns at most
once and never re-runs after a failure): on a world where the command's
first run exits 1 and a re-run exits 0, `run_tool` spawns the command
twice and returns success — the duplicated status-check block in the
source re-builds and re-runs the command after a non-zero exit instead of
failing once carrying the exit status. -/
theorem run_tool_double_spawn :
    flakyWorld.outcome 0 = .exit 1 ∧
    (run_tool flakyWorld "sometool" sampleRoot s0).1 = .ok () ∧
    (run_tool flakyWorld "sometool" sampleRoot s0).2.spawned = 2 ∧
    (run_tool flakyWorld "sometool" sampleRoot s0).2.events =
      [.spawn "sometool" [] sampleRoot, .spawn "sometool" [] sampleRoot] :=
  ⟨rfl, rfl, rfl, rfl⟩

/-! ### C2: the build flow

The container build command line is `docker build -t <tag> .` run through
the Command Executor; for a tag made of plain characters the split yields
exactly the five words. -/

/-- A character that the word splitter passes through unchanged: not
whitespace, not a quote, not a backslash, not a comment mark. -/
def shellPlain (c : Char) : Bool :=
  !isShWs c && !(c == '\'') && !(c == '"') && !(c == '\\') && !(c == '#')

theorem shellPlain_spec (c : Char) (h : shellPlain c = true) :
    isShWs c = false ∧ c ≠ '\'' ∧ c ≠ '"' ∧ c ≠ '\\' ∧ c ≠ '#' := by
  simp only [shellPlain, Bool.and_eq_true, Bool.not_eq_true', beq_eq_false_iff_ne,
    ne_eq] at h
  exact ⟨h.1.1.1.1, h.1.1.1.2, h.1.1.2, h.1.2, h.2⟩

/-- A word of plain characters parses to itself, whether a space or the
end of the input follows. -/
theorem parseWord_plain : ∀ wchars : List Char,
    (∀ c ∈ wchars, shellPlain c = true) →
    (∀ rest, parseWord (wchars ++ ' ' :: rest) = some (wchars, rest)) ∧
    parseWord wchars = some (wchars, []) := by
  intro wchars
  induction wchars with
  | nil =>
    intro _
    refine ⟨?_, rfl⟩
    intro rest
    rw [List.nil_append, parseWord_fix]
    simp only [parseWordStep]
    rw [if_pos (show isShWs ' ' = true from rfl)]
  | cons c cs ih =>
    intro h
    obtain ⟨h1, h2, h3, h4, h5⟩ := shellPlain_spec c (h c (List.mem_cons_self _ _))
    have hcs := ih (fun x hx => h x (List.mem_cons_of_mem _ hx))
    have hgo : ∀ tail r, parseWord tail = some (cs, r) →
        parseWord (c :: tail) = some (c :: cs, r) := by
      intro tail r htail
      rw [parseWord_fix]
      simp only [parseWordStep]
      rw [if_neg (by simp [h1]), if_neg h2, if_neg h3, if_neg h4, htail]
    constructor
    · intro rest
      rw [List.cons_append]
      exact hgo _ rest (hcs.1 rest)
    · exact hgo _ [] hcs.2

/-- The skip loop passes a plain character straight through. -/
theorem skipWs_plain (c : Char) (rest : List Char) (h : shellPlain c = true) :
    skipWs (c :: rest) = c :: rest := by
  obtain ⟨h1, -, -, -, h5⟩ := shellPlain_spec c h
  show skipWsAux false (c :: rest) = c :: rest
  unfold skipWsAux
  rw [if_neg (by simp [h1]), if_neg h5]

/-- Splitting a plain word followed by a space prepends the word to the
split of the remainder. -/
theorem splitWords_word_sep (wchars : List Char) (rest : List Char)
    (h : ∀ c ∈ wchars, shellPlain c = true) (hne : wchars ≠ []) :
    splitWords (wchars ++ ' ' :: rest) =
      match splitWords rest with
      | none => none
      | some ws => some (wchars :: ws) := by
  cases wchars with
  | nil => exact absurd rfl hne
  | cons c cs =>
    rw [splitWords_fix]
    unfold splitWordsStep
    rw [List.cons_append, skipWs_plain c _ (h c (List.mem_cons_self _ _))]
    dsimp only
    have hp : parseWord (c :: (cs ++ ' ' :: rest)) = some (c :: cs, rest) := by
      rw [← List.cons_append]
      exact (parseWord_plain (c :: cs) h).1 rest
    rw [hp]

/-- Splitting a final plain word yields exactly that word. -/
theorem splitWords_word_end (wchars : List Char)
    (h : ∀ c ∈ wchars, shellPlain c = true) (hne : wchars ≠ []) :
    splitWords wchars = some [wchars] := by
  cases wchars with
  | nil => exact absurd rfl hne
  | cons c cs =>
    rw [splitWords_fix]
    unfold splitWordsStep
    rw [skipWs_plain c _ (h c (List.mem_cons_self _ _))]
    dsimp only
    rw [(parseWord_plain (c :: cs) h).2]
    rfl

/-- The container build command line tokenizes to the five expected words
for a plain, non-empty image tag. -/
theorem shlexSplit_dockerCmd (img : String)
    (himg : ∀ c ∈ img.data, shellPlain c = true) (hne : img.data ≠ []) :
    shlexSplit (dockerCmd img) = some ["docker", "build", "-t", img, "."] := by
  have hdata : (dockerCmd img).data =
      "docker".data ++ ' ' :: ("build".data ++ ' ' :: ("-t".data ++ ' ' ::
        (img.data ++ ' ' :: ".".data))) := by
    have h1 : (dockerCmd img).data =
        "docker build -t ".data ++ (img.data ++ " .".data) := by
      show ("docker build -t " ++ img ++ " .").data = _
      rw [show ("docker build -t " ++ img ++ " .").data =
        ("docker build -t ".data ++ img.data) ++ " .".data from rfl]
      rw [List.append_assoc]
    rw [h1]
    rw [show ("docker build -t ".data : List Char) =
      "docker".data ++ ' ' :: ("build".data ++ ' ' :: ("-t".data ++ [' ']))
      from by decide]
    rw [show (" .".data : List Char) = ' ' :: ".".data from by decide]
    simp [List.append_assoc]
  unfold shlexSplit
  rw [hdata]
  rw [splitWords_word_sep "docker".data _ (by decide) (by decide)]
  rw [splitWords_word_sep "build".data _ (by decide) (by decide)]
  rw [splitWords_word_sep "-t".data _ (by decide) (by decide)]
  rw [splitWords_word_sep img.data _ himg hne]
  rw [splitWords_word_end ".".data (by decide) (by decide)]
  rfl

/-- The skip branch of the per-service build stage: a missing (or
non-directory) service subdirectory warns and succeeds. -/
theorem buildService_skip (w : World) (svc img : String) (root : Path) (s : S)
    (h : (s.fs.pathExists (root ++ [svc]) && s.fs.isDir (root ++ [svc])) = false) :
    buildService w svc img root s =
      (.ok (), { s with events := s.events ++
        [.warn (msgSkipBuild svc (root ++ [svc]))] }) := by
  unfold buildService
  rw [if_neg (by simp [h])]

/-- The run branch of the per-service build stage. -/
theorem buildService_run (w : World) (svc img : String) (root : Path) (s : S)
    (h : (s.fs.pathExists (root ++ [svc]) && s.fs.isDir (root ++ [svc])) = true) :
    buildService w svc img root s =
      (match (run_tool w (dockerCmd img) (root ++ [svc]) s).1 with
       | .ok _ => (.ok (), (run_tool w (dockerCmd img) (root ++ [svc]) s).2)
       | .error e => (.error (e.context (msgBuildImageFailed svc img)),
           (run_tool w (dockerCmd img) (root ++ [svc]) s).2)) := by
  unfold buildService
  rw [if_pos h]

/-- When the service subdirectory is present and the container build exits
cleanly, the stage spawns exactly one `docker` process, with the service
subdirectory as working directory and the image tag in its arguments. -/
theorem buildService_invoked (w : World) (svc img : String) (root : Path) (s : S)
    (himg : ∀ c ∈ img.data, shellPlain c = true) (hne : img.data ≠ [])
    (hdir : (s.fs.pathExists (root ++ [svc]) && s.fs.isDir (root ++ [svc])) = true)
    (hout : w.outcome s.spawned = .exit 0) :
    buildService w svc img root s =
      (.ok (), ⟨w.effect s.spawned s.fs, s.spawned + 1,
        s.events ++ [.spawn "docker" ["build", "-t", img, "."] (root ++ [svc])]⟩) := by
  rw [buildService_run w svc img root s hdir]
  have hsp := shlexSplit_dockerCmd img himg hne
  rw [run_tool_eq_run w (dockerCmd img) (root ++ [svc]) s "docker"
    ["build", "-t", img, "."] hsp]
  try dsimp only
  rw [hout]
  rfl

/-- The step equation of the image stage. -/
theorem buildImages_eq (w : World) (name : String) (root : Path) (s : S) :
    buildImages w name root s =
      match (buildService w "api-service" (name ++ "-api-service:latest") root s).1 with
      | .error e =>
        (.error e, (buildService w "api-service" (name ++ "-api-service:latest") root s).2)
      | .ok _ =>
        buildService w "model-service" (name ++ "-model-service:latest") root
          (buildService w "api-service" (name ++ "-api-service:latest") root s).2 := rfl

/-- Every event the generator stage appends is a `python` spawn (or a
non-spawn): no container build happens inside generation. -/
theorem generate_grpc_events (w : World) (root : Path) (s : S) :
    ∃ evs, (generate_grpc_code w root s).2.events = s.events ++ evs ∧
      ∀ ev ∈ evs, ∀ nm args cwd, ev = Event.spawn nm args cwd → nm = "python" := by
  unfold generate_grpc_code
  by_cases hp : s.fs.pathExists (root ++ ["model-interface", "anops.proto"]) = false
  · rw [if_pos hp]
    exact ⟨[], by simp, by simp⟩
  · rw [if_neg hp]
    by_cases h1 : canCreateDirAll s.fs (root ++ ["api-service"]) = false
    · rw [if_pos h1]
      exact ⟨[], by simp, by simp⟩
    · rw [if_neg h1]
      dsimp only
      by_cases h2 : canCreateDirAll (s.fs.mkdirAll (root ++ ["api-service"]))
          (root ++ ["model-service"]) = false
      · rw [if_pos h2]
        exact ⟨[], by simp, by simp⟩
      · rw [if_neg h2]
        try dsimp only
        simp only [doSpawn]
        cases w.outcome s.spawned with
        | spawnError =>
          refine ⟨[.spawn "python" (grpcArgs root) root], rfl, ?_⟩
          intro ev hev nm args cwd heq
          simp only [List.mem_singleton] at hev
          subst hev
          cases heq
          rfl
        | exit c =>
          try dsimp only
          by_cases hc : c = 0
          · rw [if_pos hc]
            refine ⟨[.spawn "python" (grpcArgs root) root], rfl, ?_⟩
            intro ev hev nm args cwd heq
            simp only [List.mem_singleton] at hev
            subst hev
            cases heq
            rfl
          · rw [if_neg hc]
            refine ⟨[.spawn "python" (grpcArgs root) root], rfl, ?_⟩
            intro ev hev nm args cwd heq
            simp only [List.mem_singleton] at hev
            subst hev
            cases heq
            rfl

/-- A world where every spawn exits with status 1: the code generator
fails. -/
def genFailWorld : World := ⟨fun _ => .exit 1, fun _ fs => fs⟩

/-- The execution state at the start of a build over the scaffolded
sample project. -/
def buildS : S := ⟨sampleFS, 0, []⟩

/-- C2: in the build flow, after root resolution and configuration
loading, a generator failure aborts the whole flow — the result is the
generator's error in the build context and every spawned process so far
is the `python` generator, never a container build — and, at the image
stage, each of the two fixed service subdirectories that exists on disk
has the container builder invoked with that subdirectory as working
directory (the build context) and the tag `<name>-<service>-service:latest`
in its arguments, while a missing subdirectory is skipped with a warning
and the stage carries on rather than failing. -/
theorem build_flow_spec (w : World) (start : Path) (s : S) (name : String)
    (hplain : ∀ c ∈ name.data, shellPlain c = true) :
    (∀ root config e,
      find_project_root s.fs start = .ok root →
      load_config s.fs root = .ok config →
      (generate_grpc_code w root s).1 = .error e →
      build_run w start s =
        (.error (e.context msgGenGrpcCtx), (generate_grpc_code w root s).2) ∧
      ∃ evs, (build_run w start s).2.events = s.events ++ evs ∧
        ∀ ev ∈ evs, ∀ nm args cwd, ev = Event.spawn nm args cwd → nm = "python") ∧
    (∀ (root : Path) (s2 : S),
      (s2.fs.pathExists (root ++ ["api-service"]) &&
        s2.fs.isDir (root ++ ["api-service"])) = true →
      w.outcome s2.spawned = .exit 0 →
      buildImages w name root s2 =
        buildService w "model-service" (name ++ "-model-service:latest") root
          ⟨w.effect s2.spawned s2.fs, s2.spawned + 1, s2.events ++
            [.spawn "docker" ["build", "-t", name ++ "-api-service:latest", "."]
              (root ++ ["api-service"])]⟩) ∧
    (∀ (root : Path) (s2 : S),
      (s2.fs.pathExists (root ++ ["api-service"]) &&
        s2.fs.isDir (root ++ ["api-service"])) = false →
      buildImages w name root s2 =
        buildService w "model-service" (name ++ "-model-service:latest") root
          { s2 with events := s2.events ++
              [.warn (msgSkipBuild "api-service" (root ++ ["api-service"]))] }) ∧
    (∀ (root : Path) (s2 : S),
      (s2.fs.pathExists (root ++ ["model-service"]) &&
        s2.fs.isDir (root ++ ["model-service"])) = true →
      w.outcome s2.spawned = .exit 0 →
      buildService w "model-service" (name ++ "-model-service:latest") root s2 =
        (.ok (), ⟨w.effect s2.spawned s2.fs, s2.spawned + 1, s2.events ++
          [.spawn "docker" ["build", "-t", name ++ "-model-service:latest", "."]
            (root ++ ["model-service"])]⟩)) ∧
    (∀ (root : Path) (s2 : S),
      (s2.fs.pathExists (root ++ ["model-service"]) &&
        s2.fs.isDir (root ++ ["model-service"])) = false →
      buildService w "model-service" (name ++ "-model-service:latest") root s2 =
        (.ok (), { s2 with events := s2.events ++
            [.warn (msgSkipBuild "model-service" (root ++ ["model-service"]))] })) := by
  have himgOf : ∀ sfx : String, (∀ c ∈ sfx.data, shellPlain c = true) →
      ∀ c ∈ (name ++ sfx).data, shellPlain c = true := by
    intro sfx hsfx c hc
    have hdat : (name ++ sfx).data = name.data ++ sfx.data := rfl
    rw [hdat] at hc
    rcases List.mem_append.mp hc with h | h
    · exact hplain c h
    · exact hsfx c h
  have hneOf : ∀ sfx : String, sfx.data ≠ [] → (name ++ sfx).data ≠ [] := by
    intro sfx hsfx hnil
    have hdat : (name ++ sfx).data = name.data ++ sfx.data := rfl
    rw [hdat] at hnil
    rcases List.append_eq_nil.mp hnil with ⟨-, h2⟩
    exact hsfx h2
  refine ⟨?_, ?_, ?_, ?_, ?_⟩
  · intro root config e hroot hcfg hgen
    have hb : build_run w start s =
        (.error (e.context msgGenGrpcCtx), (generate_grpc_code w root s).2) := by
      unfold build_run
      rw [hroot]
      dsimp only
      rw [hcfg]
      dsimp only
      rw [hgen]
    refine ⟨hb, ?_⟩
    rw [hb]
    exact generate_grpc_events w root s
  · intro root s2 hdir hout
    rw [buildImages_eq]
    rw [buildService_invoked w "api-service" (name ++ "-api-service:latest") root s2
      (himgOf "-api-service:latest" (by decide)) (hneOf _ (by decide)) hdir hout]
  · intro root s2 hdir
    rw [buildImages_eq, buildService_skip w "api-service"
      (name ++ "-api-service:latest") root s2 hdir]
  · intro root s2 hdir hout
    exact buildService_invoked w "model-service" (name ++ "-model-service:latest")
      root s2 (himgOf "-model-service:latest" (by decide)) (hneOf _ (by decide))
      hdir hout
  · intro root s2 hdir
    exact buildService_skip w "model-service" (name ++ "-model-service:latest")
      root s2 hdir

theorem build_flow_spec_witness :
    find_project_root buildS.fs sampleRoot = .ok sampleRoot ∧
    load_config buildS.fs sampleRoot = .ok ⟨⟨"proj"⟩, ⟨[], []⟩, []⟩ ∧
    (generate_grpc_code genFailWorld sampleRoot buildS).1 =
      .error ⟨[msgGrpcFailed 1]⟩ ∧
    (build_run genFailWorld sampleRoot buildS =
      (.error (AoError.context msgGenGrpcCtx ⟨[msgGrpcFailed 1]⟩),
        (generate_grpc_code genFailWorld sampleRoot buildS).2) ∧
      ∃ evs, (build_run genFailWorld sampleRoot buildS).2.events =
          buildS.events ++ evs ∧
        ∀ ev ∈ evs, ∀ nm args cwd, ev = Event.spawn nm args cwd → nm = "python") ∧
    (buildS.fs.pathExists (sampleRoot ++ ["api-service"]) &&
      buildS.fs.isDir (sampleRoot ++ ["api-service"])) = true ∧
    buildImages okWorld "demo" sampleRoot buildS =
      buildService okWorld "model-service" "demo-model-service:latest" sampleRoot
        ⟨okWorld.effect 0 buildS.fs, 1,
          [.spawn "docker" ["build", "-t", "demo-api-service:latest", "."]
            (sampleRoot ++ ["api-service"])]⟩ ∧
    (s0.fs.pathExists (sampleRoot ++ ["api-service"]) &&
      s0.fs.isDir (sampleRoot ++ ["api-service"])) = false ∧
    buildImages okWorld "demo" sampleRoot s0 =
      buildService okWorld "model-service" "demo-model-service:latest" sampleRoot
        { s0 with events := s0.events ++
            [.warn (msgSkipBuild "api-service" (sampleRoot ++ ["api-service"]))] } := by
  have hgen := build_flow_spec genFailWorld sampleRoot buildS "demo" (by decide)
  have hok := build_flow_spec okWorld sampleRoot buildS "demo" (by decide)
  refine ⟨rfl, rfl, rfl, hgen.1 sampleRoot ⟨⟨"proj"⟩, ⟨[], []⟩, []⟩
    ⟨[msgGrpcFailed 1]⟩ rfl rfl rfl, rfl, ?_, rfl, ?_⟩
  · exact hok.2.1 sampleRoot buildS rfl rfl
  · exact hok.2.2.1 sampleRoot s0 rfl

end AnOps
